import Mathlib

/-!
# Verification of the e-commerce microservice saga core

Shallow embedding of the three stateful services of the repository:

* the inventory service (`services/inventory-service/src/index.js`):
  `InventoryItem` / `Reservation` stores, the `POST /api/inventory/reserve`
  handler, the confirm branch of `handlePaymentProcessed`, `releaseReservation`
  and the periodic expiry sweep;
* the order service (`services/order-service/src/index.js`):
  the `Order` store and the `payment.processed` / `inventory.updated`
  event handlers;
* the payment service (`services/payment-service/src/index.js`):
  the `payments` table, `processOrderPayment` and the retry endpoint.

Modelling conventions: MongoDB/PostgreSQL stores become Lean lists with the
source's lookup semantics (`findOne` = first match, `save` on a uniquely-keyed
document = replace the matching entry); JS numbers holding quantities and
amounts become `Int` (so that under-flows such as a negative `available` are
observable exactly as in the source); `Date` values become `Int` millisecond
counts; timestamp bookkeeping fields (`createdAt`, `updatedAt`) that no
verified property mentions are omitted.  Each definition cites the source
lines it embeds.
-/

/-! ## Inventory service: data model (part_001, lines 16-49) -/

/-- Status enum of the `reservationSchema` (part_001, lines 40-44). -/
inductive RStatus
  | reserved
  | confirmed
  | released
deriving DecidableEq

/-- One document of the `Inventory` collection (part_001, lines 17-25).
The `updatedAt` default timestamp is omitted (never read or rewritten). -/
structure InventoryItem where
  productId : String
  productName : String
  quantity : Int
  reserved : Int
  available : Int
  price : Int
deriving DecidableEq

/-- One document of the `Reservation` collection (part_001, lines 36-47);
`createdAt` is omitted (never read). -/
structure Reservation where
  orderId : String
  productId : String
  quantity : Int
  status : RStatus
  expiresAt : Int
deriving DecidableEq

/-- A line of the `items` array of a reserve request (part_001, line 161). -/
structure LineItem where
  productId : String
  quantity : Int
deriving DecidableEq

/-- One entry of the `insufficientItems` report (part_001, lines 165-169). -/
structure Shortfall where
  productId : String
  requested : Int
  available : Int
deriving DecidableEq

/-- The state owned by the inventory service: the `Inventory` and
`Reservation` collections. -/
structure InvState where
  items : List InventoryItem
  reservations : List Reservation
deriving DecidableEq

/-- `Inventory.findOne({ productId })` (part_001, line 162 and elsewhere):
first document whose `productId` matches. -/
def findInventory (l : List InventoryItem) (pid : String) : Option InventoryItem :=
  l.find? (fun it => it.productId == pid)

/-- The `pre("save")` hook of `inventorySchema` (part_001, lines 28-31):
every save first recomputes `available = quantity - reserved`. -/
def preSave (it : InventoryItem) : InventoryItem :=
  { it with available := it.quantity - it.reserved }

/-- `inventory.save()` on a collection with a unique `productId` index:
replace the document with that key. -/
def putInventory (l : List InventoryItem) (it : InventoryItem) : List InventoryItem :=
  l.map (fun x => if x.productId == it.productId then it else x)

/-! ## Inventory service: confirm / release loops (part_001, lines 86-150)

Both loops have the same shape: fetch
`Reservation.find({ orderId, status: "reserved" })` and, for each hit, fetch
its inventory document, and when it exists update it, save it, and move the
reservation to a terminal status.  The fetched snapshot is processed in
collection order and the loop body never changes which snapshot entries were
matched, so the loops are embedded as one structural pass over the whole
reservation list that transforms exactly the matching entries, threading the
inventory list through; `upd` is the per-item mutation of the loop body and
`ns` the terminal status it assigns. -/

def applyGo (upd : InventoryItem → Int → InventoryItem) (ns : RStatus) (oid : String) :
    List InventoryItem → List Reservation → List InventoryItem × List Reservation
  | items, [] => (items, [])
  | items, r :: rest =>
    if r.orderId == oid && r.status == RStatus.reserved then
      match findInventory items r.productId with
      | some inv =>
        let items1 := putInventory items (preSave (upd inv r.quantity))
        let p := applyGo upd ns oid items1 rest
        (p.1, { r with status := ns } :: p.2)
      | none =>
        let p := applyGo upd ns oid items rest
        (p.1, r :: p.2)
    else
      let p := applyGo upd ns oid items rest
      (p.1, r :: p.2)

/-- The confirm branch of the inventory service's `handlePaymentProcessed`
(part_001, lines 86-110): for every reservation of the order still
`reserved`, `quantity -= r.quantity; reserved -= r.quantity; save()` on the
matching inventory document, then mark the reservation `confirmed`. -/
def confirmReservations (oid : String) (s : InvState) : InvState :=
  let p := applyGo
    (fun inv q => { inv with quantity := inv.quantity - q, reserved := inv.reserved - q })
    RStatus.confirmed oid s.items s.reservations
  ⟨p.1, p.2⟩

/-- `releaseReservation(orderId)` (part_001, lines 132-150): for every
reservation of the order still `reserved`, `reserved -= r.quantity; save()`
on the matching inventory document, then mark the reservation `released`. -/
def releaseReservation (oid : String) (s : InvState) : InvState :=
  let p := applyGo
    (fun inv q => { inv with reserved := inv.reserved - q })
    RStatus.released oid s.items s.reservations
  ⟨p.1, p.2⟩

/-- The inventory service's `handlePaymentProcessed` (part_001, lines 79-130):
`status === "success"` confirms the order's reservations (and publishes an
`inventory.updated` event, not part of the stored state), anything else
releases them. -/
def handleInvPaymentProcessed (oid : String) (status : String) (s : InvState) : InvState :=
  if status == "success" then confirmReservations oid s else releaseReservation oid s

/-! ## Inventory service: the reserve endpoint (part_001, lines 153-229) -/

/-- The availability-check loop (part_001, lines 161-171): collect, in request
order, one `Shortfall` per line whose product is missing (`available` reported
as `0`) or whose stored `available` is below the requested quantity.
No mutation happens in this loop. -/
def checkAvailability (items : List InventoryItem) : List LineItem → List Shortfall
  | [] => []
  | li :: rest =>
    match findInventory items li.productId with
    | none => ⟨li.productId, li.quantity, 0⟩ :: checkAvailability items rest
    | some inv =>
      if inv.available < li.quantity then
        ⟨li.productId, li.quantity, inv.available⟩ :: checkAvailability items rest
      else
        checkAvailability items rest

/-- `new Reservation({ orderId, productId, quantity, expiresAt })`
(part_001, lines 203-208): status defaults to `reserved`,
`expiresAt = Date.now() + 15 * 60 * 1000`. -/
def mkReservation (oid : String) (now : Int) (li : LineItem) : Reservation :=
  ⟨oid, li.productId, li.quantity, RStatus.reserved, now + 15 * 60 * 1000⟩

/-- One iteration of the reserve loop on inventory document `inv`:
`inventory.reserved += item.quantity; await inventory.save()` and
`await reservation.save()` (part_001, lines 200-210). -/
def reserveStepState (oid : String) (now : Int) (li : LineItem) (inv : InventoryItem)
    (s : InvState) : InvState :=
  ⟨putInventory s.items (preSave { inv with reserved := inv.reserved + li.quantity }),
   s.reservations ++ [mkReservation oid now li]⟩

/-- The reserve loop (part_001, lines 198-212): for each line, re-fetch the
inventory document, `reserved += quantity; save()`, and insert one new
`Reservation`; the created reservations are collected in order.  The `none`
branch cannot be reached after a successful availability check (in the
source a missing document would throw into the outer `catch`, aborting the
loop). -/
def reserveLoop (oid : String) (now : Int) :
    List LineItem → InvState → InvState × List Reservation
  | [], s => (s, [])
  | li :: rest, s =>
    match findInventory s.items li.productId with
    | some inv =>
      let p := reserveLoop oid now rest (reserveStepState oid now li inv s)
      (p.1, mkReservation oid now li :: p.2)
    | none => (s, [])

/-- Result of `POST /api/inventory/reserve`: either the 400 shortfall report
(part_001, lines 173-195) or the 200 body's created reservations
(part_001, lines 216-224). -/
inductive ReserveOutcome
  | insufficient (items : List Shortfall)
  | ok (reservations : List Reservation)
deriving DecidableEq

/-- The `POST /api/inventory/reserve` handler (part_001, lines 153-229):
run the availability check over all lines; on any shortfall, report all of
them and mutate nothing (the emitted `inventory.updated` event mirrors the
report); otherwise run the reserve loop and return the created
reservations. -/
def reserveInventory (oid : String) (req : List LineItem) (now : Int) (s : InvState) :
    ReserveOutcome × InvState :=
  let shortfall := checkAvailability s.items req
  if shortfall.isEmpty then
    let p := reserveLoop oid now req s
    (ReserveOutcome.ok p.2, p.1)
  else
    (ReserveOutcome.insufficient shortfall, s)

/-! ## Inventory service: expiry sweep (part_001, lines 282-301) -/

/-- The expired set scanned by the sweep: `Reservation.find({ status:
"reserved", expiresAt: { $lt: new Date() } })` -- note the strict `<`. -/
def expiredReservations (now : Int) (s : InvState) : List Reservation :=
  s.reservations.filter (fun r => r.status == RStatus.reserved && r.expiresAt < now)

/-- The `setInterval` sweep body (part_001, lines 282-301): for each expired
reservation, call `releaseReservation(reservation.orderId)` -- once per
reservation, not once per distinct order. -/
def sweepExpired (now : Int) (s : InvState) : InvState :=
  (expiredReservations now s).foldl (fun t r => releaseReservation r.orderId t) s

/-- The order ids the sweep passes to `releaseReservation`, in call order
(one call per expired reservation). -/
def sweepReleaseCalls (now : Int) (s : InvState) : List String :=
  (expiredReservations now s).map (fun r => r.orderId)

/-! ## Order service: data model and event handlers
(`services/order-service/src/index.js`) -/

/-- Status enum of `orderSchema` (order service, lines 28-32); the source
enum also declares `payment_processing`, which no code path assigns. -/
inductive OrderStatus
  | pending
  | payment_processing
  | confirmed
  | failed
  | cancelled
deriving DecidableEq

/-- One document of the `Order` collection (order service, lines 17-36);
the item snapshot, amounts and timestamps are carried but the event handlers
only read/write `status`, `paymentId` and `updatedAt` (the latter omitted,
as are `createdAt`, `items`, `totalAmount`, `userId`, which no handler and
no verified property reads). -/
structure Order where
  orderId : String
  status : OrderStatus
  paymentId : Option String
deriving DecidableEq

/-- `Order.findOne({ orderId })` (order service, line 81/100). -/
def findOrder (l : List Order) (oid : String) : Option Order :=
  l.find? (fun o => o.orderId == oid)

/-- `order.save()` on a collection with a unique `orderId` index. -/
def putOrder (l : List Order) (o : Order) : List Order :=
  l.map (fun x => if x.orderId == o.orderId then o else x)

/-- The `payment.processed` payload as read by the order service
(order service, line 79): `{ orderId, status, paymentId }`. -/
structure PaymentPayload where
  orderId : String
  status : String
  paymentId : String
deriving DecidableEq

/-- The `inventory.updated` payload as read by the order service
(order service, line 98): `{ orderId, status }`. -/
structure InventoryPayload where
  orderId : String
  status : String
deriving DecidableEq

/-- The order service's `handlePaymentProcessed` (order service, lines
78-95): if the order is missing, return (nothing is mutated); otherwise set
`status` to `confirmed` (recording `paymentId`) on `"success"` and to
`failed` on anything else -- the current status is never consulted. -/
def handlePaymentProcessed (p : PaymentPayload) (l : List Order) : List Order :=
  match findOrder l p.orderId with
  | none => l
  | some o =>
    if p.status == "success" then
      putOrder l { o with status := OrderStatus.confirmed, paymentId := some p.paymentId }
    else
      putOrder l { o with status := OrderStatus.failed }

/-- The order service's `handleInventoryUpdated` (order service, lines
97-111): `"reserved"` only logs; `"insufficient"` sets `status` to
`cancelled` regardless of the current status; other statuses do nothing. -/
def handleInventoryUpdated (p : InventoryPayload) (l : List Order) : List Order :=
  match findOrder l p.orderId with
  | none => l
  | some o =>
    if p.status == "reserved" then l
    else if p.status == "insufficient" then
      putOrder l { o with status := OrderStatus.cancelled }
    else l

/-- The `channel.consume` callback for `payment.processed` (order service,
lines 53-59): run the handler, then `channel.ack(msg)`.  The handler never
throws, so the acknowledgment (the returned `Bool`) is unconditional. -/
def consumePaymentProcessed (p : PaymentPayload) (l : List Order) : List Order × Bool :=
  (handlePaymentProcessed p l, true)

/-! ## Payment service: data model and processing
(`services/payment-service/src/index.js` = part_000) -/

/-- One row of the `payments` table (part_000, lines 28-41); the serial `id`,
`payment_method` and timestamps are omitted (never written by the embedded
code paths).  `status` is kept as the raw string the code writes. -/
structure Payment where
  paymentId : String
  orderId : String
  userId : String
  amount : Int
  status : String
  transactionId : Option String
deriving DecidableEq

/-- The `order.created` payload consumed by `processOrderPayment`
(part_000, line 77): `{ orderId, userId, totalAmount }`. -/
structure OrderData where
  orderId : String
  userId : String
  totalAmount : Int
deriving DecidableEq

/-- The `payment.processed` event published by `processOrderPayment`
(part_000, lines 99-106), minus the timestamp. -/
structure PaymentEvent where
  orderId : String
  paymentId : String
  status : String
  amount : Int
  transactionId : Option String
deriving DecidableEq

/-- `processOrderPayment(orderData)` (part_000, lines 76-124), with the
gateway outcome (`simulatePaymentGateway`) and the `Date.now()` clock as
explicit parameters: build `PAY-`/`TXN-` ids from the clock, insert one row,
publish one event.  The `payment_id UNIQUE` constraint is modelled: an id
collision makes the INSERT throw into the `catch`, so neither a row nor an
event is produced. -/
def processOrderPayment (gatewayOk : Bool) (now : Nat) (od : OrderData)
    (db : List Payment) : List Payment × List PaymentEvent :=
  let paymentId := "PAY-" ++ toString now
  let status := if gatewayOk then "success" else "failed"
  let transactionId := if gatewayOk then some ("TXN-" ++ toString now) else none
  if db.any (fun p => p.paymentId == paymentId) then
    (db, [])
  else
    (db ++ [⟨paymentId, od.orderId, od.userId, od.totalAmount, status, transactionId⟩],
     [⟨od.orderId, paymentId, status, od.totalAmount, transactionId⟩])

/-- Outcome of `POST /api/payments/retry/:orderId`. -/
inductive RetryOutcome
  | notFound
  | retried
deriving DecidableEq

/-- The `POST /api/payments/retry/:orderId` handler (part_000, lines
170-199): look up the order's rows with `status = 'failed'`; with none,
answer 404; otherwise rebuild the order data from the first such row and
re-run `processOrderPayment`. -/
def retryPayment (gatewayOk : Bool) (now : Nat) (oid : String)
    (db : List Payment) : RetryOutcome × List Payment × List PaymentEvent :=
  match db.filter (fun p => p.orderId == oid && p.status == "failed") with
  | [] => (RetryOutcome.notFound, db, [])
  | row :: _ =>
    let p := processOrderPayment gatewayOk now ⟨oid, row.userId, row.amount⟩ db
    (RetryOutcome.retried, p.1, p.2)

/-! ## Store lemmas -/

theorem putInventory_keys (l : List InventoryItem) (it : InventoryItem) :
    (putInventory l it).map (fun x => x.productId) = l.map (fun x => x.productId) := by
  simp only [putInventory, List.map_map]
  refine List.map_congr_left ?_
  intro a _
  by_cases h : a.productId = it.productId
  · simp [Function.comp, h]
  · simp [Function.comp, h]

theorem findInventory_putInventory_other (l : List InventoryItem) (v : InventoryItem)
    (pid : String) (h : v.productId ≠ pid) :
    findInventory (putInventory l v) pid = findInventory l pid := by
  induction l with
  | nil => rfl
  | cons x xs ih =>
    by_cases h1 : x.productId = v.productId
    · have hx : ¬ x.productId = pid := by rw [h1]; exact h
      simp only [putInventory, List.map_cons, findInventory] at *
      rw [if_pos (beq_iff_eq.mpr h1), List.find?_cons_of_neg _ (by simpa using h),
        List.find?_cons_of_neg _ (by simpa using hx)]
      exact ih
    · simp only [putInventory, List.map_cons, findInventory] at *
      rw [if_neg (by simpa using h1)]
      by_cases h2 : x.productId = pid
      · rw [List.find?_cons_of_pos _ (by simpa using h2),
          List.find?_cons_of_pos _ (by simpa using h2)]
      · rw [List.find?_cons_of_neg _ (by simpa using h2),
          List.find?_cons_of_neg _ (by simpa using h2)]
        exact ih

theorem findInventory_putInventory_self (l : List InventoryItem) (v : InventoryItem)
    (pid : String) (hex : (findInventory l pid).isSome) (hv : v.productId = pid) :
    findInventory (putInventory l v) pid = some v := by
  induction l with
  | nil => simp [findInventory] at hex
  | cons x xs ih =>
    by_cases h2 : x.productId = pid
    · have h1 : x.productId = v.productId := by rw [h2, hv]
      simp only [putInventory, List.map_cons, findInventory]
      rw [if_pos (beq_iff_eq.mpr h1), List.find?_cons_of_pos _ (by simpa using hv)]
    · have h1 : ¬ x.productId = v.productId := by rw [hv]; exact h2
      have hex' : (findInventory xs pid).isSome := by
        simp only [findInventory] at hex ⊢
        rwa [List.find?_cons_of_neg _ (by simpa using h2)] at hex
      simp only [putInventory, List.map_cons, findInventory] at ih ⊢
      rw [if_neg (by simpa using h1), List.find?_cons_of_neg _ (by simpa using h2)]
      exact ih hex'

theorem findInventory_isSome_iff (l : List InventoryItem) (pid : String) :
    (findInventory l pid).isSome ↔ pid ∈ l.map (fun x => x.productId) := by
  simp only [findInventory, List.find?_isSome, List.mem_map]
  constructor
  · rintro ⟨x, hx, hpx⟩
    exact ⟨x, hx, by simpa using hpx⟩
  · rintro ⟨x, hx, hpx⟩
    exact ⟨x, hx, by simpa using hpx⟩

theorem findInventory_eq_none_iff (l : List InventoryItem) (pid : String) :
    findInventory l pid = none ↔ pid ∉ l.map (fun x => x.productId) := by
  rw [← findInventory_isSome_iff]
  cases findInventory l pid <;> simp

theorem findInventory_mem (l : List InventoryItem) (pid : String) (it : InventoryItem)
    (h : findInventory l pid = some it) : it ∈ l ∧ it.productId = pid := by
  refine ⟨List.mem_of_find?_eq_some h, ?_⟩
  have := List.find?_some h
  simpa using this

theorem mem_putInventory (l : List InventoryItem) (it v : InventoryItem)
    (h : v ∈ putInventory l it) :
    v = it ∨ (v ∈ l ∧ v.productId ≠ it.productId) := by
  simp only [putInventory, List.mem_map] at h
  obtain ⟨x, hx, hv⟩ := h
  by_cases hp : x.productId = it.productId
  · left; simp [hp] at hv; exact hv.symm
  · right
    simp [hp] at hv
    exact ⟨hv ▸ hx, hv ▸ hp⟩

theorem findInventory_none_of_keys_eq (l l' : List InventoryItem) (pid : String)
    (hk : l'.map (fun x => x.productId) = l.map (fun x => x.productId))
    (h : findInventory l pid = none) : findInventory l' pid = none := by
  rw [findInventory_eq_none_iff] at h ⊢
  rw [hk]; exact h

/-! ## Structural lemmas about the confirm / release pass -/

theorem applyGo_keys (upd : InventoryItem → Int → InventoryItem) (ns : RStatus) (oid : String) :
    ∀ (rs : List Reservation) (items : List InventoryItem),
      ((applyGo upd ns oid items rs).1).map (fun x => x.productId) =
        items.map (fun x => x.productId)
  | [], _ => rfl
  | r :: rest, items => by
    by_cases hg : (r.orderId == oid && r.status == RStatus.reserved) = true
    · cases hf : findInventory items r.productId with
      | some inv =>
        have h1 := applyGo_keys upd ns oid rest (putInventory items (preSave (upd inv r.quantity)))
        have h2 := putInventory_keys items (preSave (upd inv r.quantity))
        simp only [applyGo]
        rw [if_pos hg, hf]
        exact h1.trans h2
      | none =>
        have h1 := applyGo_keys upd ns oid rest items
        simp only [applyGo]
        rw [if_pos hg, hf]
        exact h1
    · have h1 := applyGo_keys upd ns oid rest items
      simp only [applyGo]
      rw [if_neg hg]
      exact h1

theorem applyGo_noMatch (upd : InventoryItem → Int → InventoryItem) (ns : RStatus) (oid : String) :
    ∀ (rs : List Reservation) (items : List InventoryItem),
      (∀ r ∈ rs, (r.orderId == oid && r.status == RStatus.reserved) = false) →
      applyGo upd ns oid items rs = (items, rs)
  | [], _, _ => rfl
  | r :: rest, items, h => by
    have hg : ¬ (r.orderId == oid && r.status == RStatus.reserved) = true := by
      simp [h r (List.mem_cons_self r rest)]
    have ih := applyGo_noMatch upd ns oid rest items
      (fun x hx => h x (List.mem_cons_of_mem r hx))
    simp only [applyGo]
    rw [if_neg hg, ih]

theorem applyGo_preserves_nonmatching (upd : InventoryItem → Int → InventoryItem)
    (ns : RStatus) (oid : String) :
    ∀ (rs : List Reservation) (items : List InventoryItem) (r : Reservation),
      r ∈ rs → (r.orderId == oid && r.status == RStatus.reserved) = false →
      r ∈ (applyGo upd ns oid items rs).2
  | x :: rest, items, r, hmem, hr => by
    rcases List.mem_cons.mp hmem with heq | htail
    · subst heq
      have hg : ¬ (r.orderId == oid && r.status == RStatus.reserved) = true := by simp [hr]
      simp only [applyGo]
      rw [if_neg hg]
      exact List.mem_cons_self r _
    · by_cases hg : (x.orderId == oid && x.status == RStatus.reserved) = true
      · cases hf : findInventory items x.productId with
        | some inv =>
          have ih := applyGo_preserves_nonmatching upd ns oid rest
            (putInventory items (preSave (upd inv x.quantity))) r htail hr
          simp only [applyGo]
          rw [if_pos hg, hf]
          exact List.mem_cons_of_mem _ ih
        | none =>
          have ih := applyGo_preserves_nonmatching upd ns oid rest items r htail hr
          simp only [applyGo]
          rw [if_pos hg, hf]
          exact List.mem_cons_of_mem _ ih
      · have ih := applyGo_preserves_nonmatching upd ns oid rest items r htail hr
        simp only [applyGo]
        rw [if_neg hg]
        exact List.mem_cons_of_mem _ ih

/-- The quantity a single reservation record contributes to the `reserved`
counter of product `pid`: its quantity while it is active (status
`reserved`), nothing once terminal. -/
def resContrib (r : Reservation) (pid : String) : Int :=
  if r.status = RStatus.reserved ∧ r.productId = pid then r.quantity else 0

/-- Total quantity currently reserved for product `pid` across a reservation
list. -/
def activeSum (rs : List Reservation) (pid : String) : Int :=
  (rs.map (fun r => resContrib r pid)).sum

/-- Consistency invariant of the inventory store tying the counters to the
reservation set: every stored `available` equals `quantity - reserved` and is
nonnegative, every `reserved` equals the total of the product's active
reservations, and reservation quantities are nonnegative. -/
def LedgerInv (s : InvState) : Prop :=
  (∀ it ∈ s.items, it.available = it.quantity - it.reserved ∧ 0 ≤ it.available) ∧
  (∀ it ∈ s.items, it.reserved = activeSum s.reservations it.productId) ∧
  (∀ r ∈ s.reservations, 0 ≤ r.quantity)

theorem activeSum_nil (pid : String) : activeSum [] pid = 0 := rfl

theorem activeSum_cons (r : Reservation) (rs : List Reservation) (pid : String) :
    activeSum (r :: rs) pid = resContrib r pid + activeSum rs pid := by
  simp [activeSum]

theorem activeSum_append (rs1 rs2 : List Reservation) (pid : String) :
    activeSum (rs1 ++ rs2) pid = activeSum rs1 pid + activeSum rs2 pid := by
  simp [activeSum]

theorem resContrib_nonneg (r : Reservation) (pid : String) (h : 0 ≤ r.quantity) :
    0 ≤ resContrib r pid := by
  unfold resContrib
  split
  · exact h
  · exact le_refl 0

theorem activeSum_nonneg (rs : List Reservation) (pid : String)
    (h : ∀ r ∈ rs, 0 ≤ r.quantity) : 0 ≤ activeSum rs pid := by
  refine List.sum_nonneg ?_
  intro x hx
  simp only [List.mem_map] at hx
  obtain ⟨r, hr, hxeq⟩ := hx
  subst hxeq
  exact resContrib_nonneg r pid (h r hr)

theorem resContrib_of_terminal (r : Reservation) (pid : String)
    (h : r.status ≠ RStatus.reserved) : resContrib r pid = 0 := by
  simp [resContrib, h]

theorem resContrib_of_ne (r : Reservation) (pid : String)
    (h : r.productId ≠ pid) : resContrib r pid = 0 := by
  simp [resContrib, h]

theorem applyGo_inv (upd : InventoryItem → Int → InventoryItem) (ns : RStatus) (oid : String)
    (hpid : ∀ it q, (upd it q).productId = it.productId)
    (hres : ∀ it q, (upd it q).reserved = it.reserved - q)
    (havail : ∀ it q, 0 ≤ q →
      it.quantity - it.reserved ≤ (upd it q).quantity - (upd it q).reserved)
    (hns : ns ≠ RStatus.reserved) :
    ∀ (rs : List Reservation) (items : List InventoryItem) (extra : String → Int),
      (∀ it ∈ items, it.available = it.quantity - it.reserved ∧ 0 ≤ it.available) →
      (∀ it ∈ items, it.reserved = extra it.productId + activeSum rs it.productId) →
      (∀ r ∈ rs, 0 ≤ r.quantity) →
      (∀ it ∈ (applyGo upd ns oid items rs).1,
          it.available = it.quantity - it.reserved ∧ 0 ≤ it.available) ∧
      (∀ it ∈ (applyGo upd ns oid items rs).1,
          it.reserved = extra it.productId +
            activeSum (applyGo upd ns oid items rs).2 it.productId) ∧
      (∀ r ∈ (applyGo upd ns oid items rs).2, 0 ≤ r.quantity)
  | [], items, extra, hBE, hC, _ => by
    refine ⟨hBE, ?_, ?_⟩
    · intro it hit
      exact hC it hit
    · intro r h
      simp [applyGo] at h
  | r :: rest, items, extra, hBE, hC, hD => by
    have hDrest : ∀ x ∈ rest, 0 ≤ x.quantity := fun x hx => hD x (List.mem_cons_of_mem r hx)
    by_cases hg : (r.orderId == oid && r.status == RStatus.reserved) = true
    · have hrst : r.status = RStatus.reserved := by
        have h2 := (Bool.and_eq_true _ _).mp hg |>.2
        exact beq_iff_eq.mp h2
      cases hf : findInventory items r.productId with
      | some inv =>
        obtain ⟨hinvmem, hinvpid⟩ := findInventory_mem items r.productId inv hf
        have hq : 0 ≤ r.quantity := hD r (List.mem_cons_self r rest)
        have heq : applyGo upd ns oid items (r :: rest) =
            ((applyGo upd ns oid (putInventory items (preSave (upd inv r.quantity))) rest).1,
             { r with status := ns } ::
               (applyGo upd ns oid (putInventory items (preSave (upd inv r.quantity))) rest).2) := by
          simp only [applyGo]
          rw [if_pos hg, hf]
        have hvpid : (preSave (upd inv r.quantity)).productId = r.productId := by
          simp [preSave, hpid, hinvpid]
        have hvres : (preSave (upd inv r.quantity)).reserved = inv.reserved - r.quantity := by
          simp [preSave, hres]
        have hvav : (preSave (upd inv r.quantity)).available =
            (preSave (upd inv r.quantity)).quantity - (preSave (upd inv r.quantity)).reserved := by
          simp [preSave]
        have hvge : inv.available ≤ (preSave (upd inv r.quantity)).available := by
          have h1 := havail inv r.quantity hq
          have h2 := (hBE inv hinvmem).1
          simp only [preSave]
          omega
        have hBE1 : ∀ it ∈ putInventory items (preSave (upd inv r.quantity)),
            it.available = it.quantity - it.reserved ∧ 0 ≤ it.available := by
          intro it hit
          rcases mem_putInventory _ _ _ hit with hveq | ⟨hmem, _⟩
          · subst hveq
            exact ⟨hvav, le_trans (hBE inv hinvmem).2 hvge⟩
          · exact hBE it hmem
        have hC1 : ∀ it ∈ putInventory items (preSave (upd inv r.quantity)),
            it.reserved = extra it.productId + activeSum rest it.productId := by
          intro it hit
          rcases mem_putInventory _ _ _ hit with hveq | ⟨hmem, hne⟩
          · subst hveq
            have hci := hC inv hinvmem
            rw [activeSum_cons, hinvpid] at hci
            have hcr : resContrib r r.productId = r.quantity := by
              simp [resContrib, hrst]
            rw [hcr] at hci
            rw [hvres, hvpid]
            omega
          · have hci := hC it hmem
            rw [activeSum_cons] at hci
            have hcr : resContrib r it.productId = 0 := by
              refine resContrib_of_ne r it.productId ?_
              intro hrp
              exact hne (by rw [hvpid, ← hrp])
            rw [hcr] at hci
            omega
        have IH := applyGo_inv upd ns oid hpid hres havail hns rest
          (putInventory items (preSave (upd inv r.quantity))) extra hBE1 hC1 hDrest
        rw [heq]
        refine ⟨IH.1, ?_, ?_⟩
        · intro it hit
          have hit' := IH.2.1 it hit
          rw [activeSum_cons, resContrib_of_terminal _ _ (by simpa using hns)]
          omega
        · intro x hx
          rcases List.mem_cons.mp hx with hxeq | htail
          · subst hxeq
            exact hq
          · exact IH.2.2 x htail
      | none =>
        have hkeys : r.productId ∉ items.map (fun x => x.productId) :=
          (findInventory_eq_none_iff _ _).mp hf
        have heq : applyGo upd ns oid items (r :: rest) =
            ((applyGo upd ns oid items rest).1,
             r :: (applyGo upd ns oid items rest).2) := by
          simp only [applyGo]
          rw [if_pos hg, hf]
        have hC1 : ∀ it ∈ items, it.reserved = extra it.productId + activeSum rest it.productId := by
          intro it hmem
          have hci := hC it hmem
          rw [activeSum_cons] at hci
          have hcr : resContrib r it.productId = 0 := by
            refine resContrib_of_ne r it.productId ?_
            intro hrp
            exact hkeys (hrp ▸ List.mem_map_of_mem (fun x => x.productId) hmem)
          rw [hcr] at hci
          omega
        have IH := applyGo_inv upd ns oid hpid hres havail hns rest items extra hBE hC1 hDrest
        rw [heq]
        refine ⟨IH.1, ?_, ?_⟩
        · intro it hit
          have hit' := IH.2.1 it hit
          have hitk : it.productId ∈ items.map (fun x => x.productId) := by
            rw [← applyGo_keys upd ns oid rest items]
            exact List.mem_map_of_mem (fun x => x.productId) hit
          have hcr : resContrib r it.productId = 0 := by
            refine resContrib_of_ne r it.productId ?_
            intro hrp
            exact hkeys (hrp ▸ hitk)
          rw [activeSum_cons, hcr]
          omega
        · intro x hx
          rcases List.mem_cons.mp hx with hxeq | htail
          · rw [hxeq]
            exact hD r (List.mem_cons_self r rest)
          · exact IH.2.2 x htail
    · have heq : applyGo upd ns oid items (r :: rest) =
          ((applyGo upd ns oid items rest).1,
           r :: (applyGo upd ns oid items rest).2) := by
        simp only [applyGo]
        rw [if_neg hg]
      have hC1 : ∀ it ∈ items,
          it.reserved = (extra it.productId + resContrib r it.productId) +
            activeSum rest it.productId := by
        intro it hmem
        have hci := hC it hmem
        rw [activeSum_cons] at hci
        omega
      have IH := applyGo_inv upd ns oid hpid hres havail hns rest items
        (fun pid => extra pid + resContrib r pid) hBE hC1 hDrest
      rw [heq]
      refine ⟨IH.1, ?_, ?_⟩
      · intro it hit
        have hit' := IH.2.1 it hit
        simp only at hit'
        rw [activeSum_cons]
        omega
      · intro x hx
        rcases List.mem_cons.mp hx with hxeq | htail
        · rw [hxeq]
          exact hD r (List.mem_cons_self r rest)
        · exact IH.2.2 x htail

theorem applyGo_idem (upd : InventoryItem → Int → InventoryItem) (ns : RStatus) (oid : String)
    (hns : ns ≠ RStatus.reserved) :
    ∀ (rs : List Reservation) (items : List InventoryItem),
      applyGo upd ns oid (applyGo upd ns oid items rs).1 (applyGo upd ns oid items rs).2 =
        applyGo upd ns oid items rs
  | [], _ => rfl
  | r :: rest, items => by
    have hbs : (ns == RStatus.reserved) = false := by
      cases ns
      · exact absurd rfl hns
      · rfl
      · rfl
    by_cases hg : (r.orderId == oid && r.status == RStatus.reserved) = true
    · cases hf : findInventory items r.productId with
      | some inv =>
        have ih := applyGo_idem upd ns oid hns rest
          (putInventory items (preSave (upd inv r.quantity)))
        have hg2 : ¬ (({ r with status := ns } : Reservation).orderId == oid &&
            ({ r with status := ns } : Reservation).status == RStatus.reserved) = true := by
          simp [hbs]
        simp only [applyGo]
        rw [if_pos hg, hf]
        simp only [applyGo]
        rw [if_neg hg2, ih]
      | none =>
        have ih := applyGo_idem upd ns oid hns rest items
        have hkeys := applyGo_keys upd ns oid rest items
        have hf2 : findInventory (applyGo upd ns oid items rest).1 r.productId = none :=
          findInventory_none_of_keys_eq items _ _ hkeys hf
        simp only [applyGo]
        rw [if_pos hg, hf]
        simp only [applyGo]
        rw [if_pos hg, hf2, ih]
    · have ih := applyGo_idem upd ns oid hns rest items
      simp only [applyGo]
      rw [if_neg hg]
      simp only [applyGo]
      rw [if_neg hg, ih]

/-! ## Derived lemmas: confirm / release / sweep -/

theorem confirmReservations_idem_eq (oid : String) (s : InvState) :
    confirmReservations oid (confirmReservations oid s) = confirmReservations oid s := by
  simp only [confirmReservations]
  rw [applyGo_idem _ _ _ (by decide) s.reservations s.items]

theorem releaseReservation_idem_eq (oid : String) (s : InvState) :
    releaseReservation oid (releaseReservation oid s) = releaseReservation oid s := by
  simp only [releaseReservation]
  rw [applyGo_idem _ _ _ (by decide) s.reservations s.items]

theorem confirmReservations_inv (oid : String) (s : InvState) (h : LedgerInv s) :
    LedgerInv (confirmReservations oid s) := by
  obtain ⟨hBE, hC, hD⟩ := h
  have hC0 : ∀ it ∈ s.items,
      it.reserved = (fun _ => (0:Int)) it.productId + activeSum s.reservations it.productId := by
    intro it hit
    simpa using hC it hit
  have H := applyGo_inv
    (fun inv q => { inv with quantity := inv.quantity - q, reserved := inv.reserved - q })
    RStatus.confirmed oid
    (fun _ _ => rfl) (fun _ _ => rfl)
    (fun it q _ => by
      show it.quantity - it.reserved ≤ (it.quantity - q) - (it.reserved - q)
      omega)
    (by decide)
    s.reservations s.items (fun _ => 0) hBE hC0 hD
  refine ⟨H.1, ?_, H.2.2⟩
  intro it hit
  simpa using H.2.1 it hit

theorem releaseReservation_inv (oid : String) (s : InvState) (h : LedgerInv s) :
    LedgerInv (releaseReservation oid s) := by
  obtain ⟨hBE, hC, hD⟩ := h
  have hC0 : ∀ it ∈ s.items,
      it.reserved = (fun _ => (0:Int)) it.productId + activeSum s.reservations it.productId := by
    intro it hit
    simpa using hC it hit
  have H := applyGo_inv
    (fun inv q => { inv with reserved := inv.reserved - q })
    RStatus.released oid
    (fun _ _ => rfl) (fun _ _ => rfl)
    (fun it q hq => by
      show it.quantity - it.reserved ≤ it.quantity - (it.reserved - q)
      omega)
    (by decide)
    s.reservations s.items (fun _ => 0) hBE hC0 hD
  refine ⟨H.1, ?_, H.2.2⟩
  intro it hit
  simpa using H.2.1 it hit

theorem LedgerInv.reserved_nonneg (s : InvState) (h : LedgerInv s) :
    ∀ it ∈ s.items, 0 ≤ it.reserved := by
  intro it hit
  rw [h.2.1 it hit]
  exact activeSum_nonneg _ _ h.2.2

theorem foldlRelease_inv :
    ∀ (l : List Reservation) (s : InvState), LedgerInv s →
      LedgerInv (l.foldl (fun t r => releaseReservation r.orderId t) s)
  | [], _, h => h
  | r :: rest, s, h => by
    rw [List.foldl_cons]
    exact foldlRelease_inv rest _ (releaseReservation_inv r.orderId s h)

theorem sweepExpired_inv (now : Int) (s : InvState) (h : LedgerInv s) :
    LedgerInv (sweepExpired now s) :=
  foldlRelease_inv _ _ h

/-! ## Lemmas about the availability check -/

theorem checkAvailability_cons_none (items : List InventoryItem) (li0 : LineItem)
    (rest : List LineItem) (hf : findInventory items li0.productId = none) :
    checkAvailability items (li0 :: rest) =
      ⟨li0.productId, li0.quantity, 0⟩ :: checkAvailability items rest := by
  simp only [checkAvailability]
  rw [hf]

theorem checkAvailability_cons_short (items : List InventoryItem) (li0 : LineItem)
    (rest : List LineItem) (inv0 : InventoryItem)
    (hf : findInventory items li0.productId = some inv0)
    (hlt : inv0.available < li0.quantity) :
    checkAvailability items (li0 :: rest) =
      ⟨li0.productId, li0.quantity, inv0.available⟩ :: checkAvailability items rest := by
  simp only [checkAvailability]
  rw [hf]
  exact if_pos hlt

theorem checkAvailability_cons_ok (items : List InventoryItem) (li0 : LineItem)
    (rest : List LineItem) (inv0 : InventoryItem)
    (hf : findInventory items li0.productId = some inv0)
    (hlt : ¬ inv0.available < li0.quantity) :
    checkAvailability items (li0 :: rest) = checkAvailability items rest := by
  simp only [checkAvailability]
  rw [hf]
  exact if_neg hlt

theorem checkAvailability_eq_nil (items : List InventoryItem) :
    ∀ (req : List LineItem), checkAvailability items req = [] →
      ∀ li ∈ req, ∃ inv, findInventory items li.productId = some inv ∧
        ¬ inv.available < li.quantity
  | [], _, li, hmem => by simp at hmem
  | li0 :: rest, h, li, hmem => by
    cases hf : findInventory items li0.productId with
    | none =>
      rw [checkAvailability_cons_none items li0 rest hf] at h
      exact absurd h (by simp)
    | some inv0 =>
      by_cases hlt : inv0.available < li0.quantity
      · rw [checkAvailability_cons_short items li0 rest inv0 hf hlt] at h
        exact absurd h (by simp)
      · rw [checkAvailability_cons_ok items li0 rest inv0 hf hlt] at h
        rcases List.mem_cons.mp hmem with heq | htail
        · exact ⟨inv0, by rw [heq]; exact hf, by rw [heq]; exact hlt⟩
        · exact checkAvailability_eq_nil items rest h li htail

theorem checkAvailability_mem_missing (items : List InventoryItem) :
    ∀ (req : List LineItem) (li : LineItem), li ∈ req →
      findInventory items li.productId = none →
      (⟨li.productId, li.quantity, 0⟩ : Shortfall) ∈ checkAvailability items req
  | li0 :: rest, li, hmem, hf => by
    rcases List.mem_cons.mp hmem with heq | htail
    · subst heq
      rw [checkAvailability_cons_none items li rest hf]
      exact List.mem_cons_self _ _
    · have ih := checkAvailability_mem_missing items rest li htail hf
      cases hf0 : findInventory items li0.productId with
      | none =>
        rw [checkAvailability_cons_none items li0 rest hf0]
        exact List.mem_cons_of_mem _ ih
      | some inv0 =>
        by_cases hlt : inv0.available < li0.quantity
        · rw [checkAvailability_cons_short items li0 rest inv0 hf0 hlt]
          exact List.mem_cons_of_mem _ ih
        · rw [checkAvailability_cons_ok items li0 rest inv0 hf0 hlt]
          exact ih

theorem checkAvailability_mem_short (items : List InventoryItem) :
    ∀ (req : List LineItem) (li : LineItem) (inv : InventoryItem), li ∈ req →
      findInventory items li.productId = some inv →
      inv.available < li.quantity →
      (⟨li.productId, li.quantity, inv.available⟩ : Shortfall) ∈ checkAvailability items req
  | li0 :: rest, li, inv, hmem, hf, hlt => by
    rcases List.mem_cons.mp hmem with heq | htail
    · subst heq
      rw [checkAvailability_cons_short items li rest inv hf hlt]
      exact List.mem_cons_self _ _
    · have ih := checkAvailability_mem_short items rest li inv htail hf hlt
      cases hf0 : findInventory items li0.productId with
      | none =>
        rw [checkAvailability_cons_none items li0 rest hf0]
        exact List.mem_cons_of_mem _ ih
      | some inv0 =>
        by_cases hlt0 : inv0.available < li0.quantity
        · rw [checkAvailability_cons_short items li0 rest inv0 hf0 hlt0]
          exact List.mem_cons_of_mem _ ih
        · rw [checkAvailability_cons_ok items li0 rest inv0 hf0 hlt0]
          exact ih

/-! ## Lemmas about the reserve loop -/

theorem reserveLoop_cons_some (oid : String) (now : Int) (li : LineItem)
    (rest : List LineItem) (s : InvState) (inv : InventoryItem)
    (hf : findInventory s.items li.productId = some inv) :
    reserveLoop oid now (li :: rest) s =
      ((reserveLoop oid now rest (reserveStepState oid now li inv s)).1,
       mkReservation oid now li ::
         (reserveLoop oid now rest (reserveStepState oid now li inv s)).2) := by
  simp only [reserveLoop]
  rw [hf]

theorem reserveStepState_keys (oid : String) (now : Int) (li : LineItem)
    (inv : InventoryItem) (s : InvState) :
    (reserveStepState oid now li inv s).items.map (fun x => x.productId) =
      s.items.map (fun x => x.productId) :=
  putInventory_keys _ _

theorem reserveLoop_spec (oid : String) (now : Int) :
    ∀ (req : List LineItem) (s : InvState),
      (∀ li ∈ req, (findInventory s.items li.productId).isSome) →
      (reserveLoop oid now req s).2 = req.map (fun li => mkReservation oid now li) ∧
      (reserveLoop oid now req s).1.reservations =
        s.reservations ++ (reserveLoop oid now req s).2 ∧
      (reserveLoop oid now req s).1.items.map (fun x => x.productId) =
        s.items.map (fun x => x.productId)
  | [], s, _ => by
    refine ⟨rfl, ?_, rfl⟩
    simp [reserveLoop]
  | li :: rest, s, hpres => by
    have hs : (findInventory s.items li.productId).isSome :=
      hpres li (List.mem_cons_self li rest)
    cases hf : findInventory s.items li.productId with
    | none => rw [hf] at hs; simp at hs
    | some inv =>
      have hpres1 : ∀ lj ∈ rest, (findInventory (reserveStepState oid now li inv s).items
          lj.productId).isSome := by
        intro lj hj
        rw [findInventory_isSome_iff, reserveStepState_keys, ← findInventory_isSome_iff]
        exact hpres lj (List.mem_cons_of_mem li hj)
      have IH := reserveLoop_spec oid now rest (reserveStepState oid now li inv s) hpres1
      rw [reserveLoop_cons_some oid now li rest s inv hf]
      refine ⟨?_, ?_, ?_⟩
      · simp only [List.map_cons]
        rw [IH.1]
      · show (reserveLoop oid now rest (reserveStepState oid now li inv s)).1.reservations = _
        rw [IH.2.1, IH.1]
        show (reserveStepState oid now li inv s).reservations ++ _ = _
        simp [reserveStepState]
      · show (reserveLoop oid now rest (reserveStepState oid now li inv s)).1.items.map
            (fun x => x.productId) = _
        rw [IH.2.2, reserveStepState_keys]

theorem reserveLoop_untouched (oid : String) (now : Int) :
    ∀ (req : List LineItem) (s : InvState) (pid : String),
      pid ∉ req.map (fun li => li.productId) →
      findInventory (reserveLoop oid now req s).1.items pid = findInventory s.items pid
  | [], _, _, _ => rfl
  | li :: rest, s, pid, hpid => by
    have hne : li.productId ≠ pid := by
      intro h
      exact hpid (by simp [← h])
    have htail : pid ∉ rest.map (fun li => li.productId) := by
      intro h
      exact hpid (List.mem_cons_of_mem _ h)
    cases hf : findInventory s.items li.productId with
    | none =>
      simp only [reserveLoop]
      rw [hf]
    | some inv =>
      obtain ⟨_, hinvpid⟩ := findInventory_mem s.items li.productId inv hf
      rw [reserveLoop_cons_some oid now li rest s inv hf]
      show findInventory (reserveLoop oid now rest (reserveStepState oid now li inv s)).1.items
          pid = _
      rw [reserveLoop_untouched oid now rest _ pid htail]
      show findInventory (putInventory s.items
        (preSave { inv with reserved := inv.reserved + li.quantity })) pid = _
      exact findInventory_putInventory_other _ _ _ (by
        show (preSave { inv with reserved := inv.reserved + li.quantity }).productId ≠ pid
        simpa [preSave, hinvpid] using hne)

theorem reserveLoop_touched (oid : String) (now : Int) :
    ∀ (req : List LineItem) (s : InvState) (li : LineItem),
      (req.map (fun x => x.productId)).Nodup →
      (∀ lj ∈ req, (findInventory s.items lj.productId).isSome) →
      li ∈ req →
      findInventory (reserveLoop oid now req s).1.items li.productId =
        (findInventory s.items li.productId).map
          (fun inv => preSave { inv with reserved := inv.reserved + li.quantity })
  | li0 :: rest, s, li, hnd, hpres, hmem => by
    have hs : (findInventory s.items li0.productId).isSome :=
      hpres li0 (List.mem_cons_self li0 rest)
    cases hf : findInventory s.items li0.productId with
    | none => rw [hf] at hs; simp at hs
    | some inv0 =>
      obtain ⟨_, hinv0pid⟩ := findInventory_mem s.items li0.productId inv0 hf
      have hnd0 : li0.productId ∉ rest.map (fun x => x.productId) :=
        (List.nodup_cons.mp hnd).1
      have hndr : (rest.map (fun x => x.productId)).Nodup :=
        (List.nodup_cons.mp hnd).2
      have hpres1 : ∀ lj ∈ rest, (findInventory (reserveStepState oid now li0 inv0 s).items
          lj.productId).isSome := by
        intro lj hj
        rw [findInventory_isSome_iff, reserveStepState_keys, ← findInventory_isSome_iff]
        exact hpres lj (List.mem_cons_of_mem li0 hj)
      rw [reserveLoop_cons_some oid now li0 rest s inv0 hf]
      rcases List.mem_cons.mp hmem with heq | htail
      · subst heq
        show findInventory (reserveLoop oid now rest (reserveStepState oid now li inv0 s)).1.items
            li.productId = _
        rw [reserveLoop_untouched oid now rest _ li.productId hnd0]
        show findInventory (putInventory s.items
          (preSave { inv0 with reserved := inv0.reserved + li.quantity })) li.productId = _
        rw [hf]
        refine findInventory_putInventory_self _ _ _ (by rw [hf]; rfl) ?_
        show (preSave { inv0 with reserved := inv0.reserved + li.quantity }).productId =
          li.productId
        simp [preSave, hinv0pid]
      · have hlipid : li.productId ≠ li0.productId := by
          intro h
          exact hnd0 (h ▸ List.mem_map_of_mem (fun x => x.productId) htail)
        have IH := reserveLoop_touched oid now rest (reserveStepState oid now li0 inv0 s)
          li hndr hpres1 htail
        show findInventory (reserveLoop oid now rest (reserveStepState oid now li0 inv0 s)).1.items
            li.productId = _
        rw [IH]
        show (findInventory (putInventory s.items
          (preSave { inv0 with reserved := inv0.reserved + li0.quantity })) li.productId).map _ = _
        rw [findInventory_putInventory_other _ _ _ (by
          show (preSave { inv0 with reserved := inv0.reserved + li0.quantity }).productId ≠
            li.productId
          simpa [preSave, hinv0pid] using fun h => hlipid h.symm)]

theorem reserveLoop_inv (oid : String) (now : Int) :
    ∀ (req : List LineItem) (s : InvState),
      LedgerInv s →
      (req.map (fun x => x.productId)).Nodup →
      (∀ li ∈ req, 0 ≤ li.quantity) →
      (∀ li ∈ req, ∃ inv, findInventory s.items li.productId = some inv ∧
        li.quantity ≤ inv.available) →
      LedgerInv (reserveLoop oid now req s).1
  | [], _, h, _, _, _ => h
  | li :: rest, s, h, hnd, hq, hav => by
    obtain ⟨inv, hf, hle⟩ := hav li (List.mem_cons_self li rest)
    obtain ⟨hinvmem, hinvpid⟩ := findInventory_mem s.items li.productId inv hf
    obtain ⟨hBE, hC, hD⟩ := h
    have hq0 : 0 ≤ li.quantity := hq li (List.mem_cons_self li rest)
    have hnd0 : li.productId ∉ rest.map (fun x => x.productId) :=
      (List.nodup_cons.mp hnd).1
    have hBE1 : ∀ it ∈ (reserveStepState oid now li inv s).items,
        it.available = it.quantity - it.reserved ∧ 0 ≤ it.available := by
      intro it hit
      rcases mem_putInventory _ _ _ hit with hveq | ⟨hmem, _⟩
      · rw [hveq]
        refine ⟨rfl, ?_⟩
        show (0:Int) ≤ inv.quantity - (inv.reserved + li.quantity)
        have h1 := (hBE inv hinvmem).1
        omega
      · exact hBE it hmem
    have hC1 : ∀ it ∈ (reserveStepState oid now li inv s).items,
        it.reserved = activeSum (reserveStepState oid now li inv s).reservations
          it.productId := by
      intro it hit
      show it.reserved = activeSum (s.reservations ++ [mkReservation oid now li]) it.productId
      rw [activeSum_append]
      rcases mem_putInventory _ _ _ hit with hveq | ⟨hmem, hne⟩
      · rw [hveq]
        show inv.reserved + li.quantity = _
        have hcr : resContrib (mkReservation oid now li)
            (preSave { inv with reserved := inv.reserved + li.quantity }).productId =
            li.quantity := by
          show resContrib (mkReservation oid now li) inv.productId = li.quantity
          rw [hinvpid]
          simp [resContrib, mkReservation]
        rw [activeSum_cons, activeSum_nil, hcr,
          show (preSave { inv with reserved := inv.reserved + li.quantity }).productId =
            inv.productId from rfl]
        have := hC inv hinvmem
        omega
      · have hcr : resContrib (mkReservation oid now li) it.productId = 0 := by
          refine resContrib_of_ne _ _ ?_
          show li.productId ≠ it.productId
          intro hcontra
          refine hne ?_
          show it.productId =
            (preSave { inv with reserved := inv.reserved + li.quantity }).productId
          show it.productId = inv.productId
          rw [hinvpid, ← hcontra]
        rw [activeSum_cons, activeSum_nil, hcr]
        have := hC it hmem
        omega
    have hD1 : ∀ r ∈ (reserveStepState oid now li inv s).reservations, 0 ≤ r.quantity := by
      intro r hr
      rcases List.mem_append.mp hr with hold | hnew
      · exact hD r hold
      · rcases List.mem_singleton.mp hnew with rfl
        exact hq0
    have hav1 : ∀ lj ∈ rest, ∃ invj,
        findInventory (reserveStepState oid now li inv s).items lj.productId = some invj ∧
        lj.quantity ≤ invj.available := by
      intro lj hj
      obtain ⟨invj, hfj, hlej⟩ := hav lj (List.mem_cons_of_mem li hj)
      have hnej : (preSave { inv with reserved := inv.reserved + li.quantity }).productId ≠
          lj.productId := by
        show inv.productId ≠ lj.productId
        rw [hinvpid]
        intro hcontra
        exact hnd0 (hcontra ▸ List.mem_map_of_mem (fun x => x.productId) hj)
      refine ⟨invj, ?_, hlej⟩
      show findInventory (putInventory s.items
        (preSave { inv with reserved := inv.reserved + li.quantity })) lj.productId = some invj
      rw [findInventory_putInventory_other _ _ _ hnej]
      exact hfj
    have IH := reserveLoop_inv oid now rest (reserveStepState oid now li inv s)
      ⟨hBE1, hC1, hD1⟩ (List.nodup_cons.mp hnd).2
      (fun lj hj => hq lj (List.mem_cons_of_mem li hj)) hav1
    rw [reserveLoop_cons_some oid now li rest s inv hf]
    exact IH

/-- `POST /api/inventory/reserve` preserves the ledger invariant provided the
request's line items name pairwise distinct products with nonnegative
quantities. -/
theorem reserveInventory_inv (oid : String) (req : List LineItem) (now : Int)
    (s : InvState) (h : LedgerInv s)
    (hnd : (req.map (fun x => x.productId)).Nodup)
    (hq : ∀ li ∈ req, 0 ≤ li.quantity) :
    LedgerInv (reserveInventory oid req now s).2 := by
  simp only [reserveInventory]
  by_cases hemp : (checkAvailability s.items req).isEmpty = true
  · rw [if_pos hemp]
    have hnil : checkAvailability s.items req = [] := List.isEmpty_iff.mp hemp
    have hav : ∀ li ∈ req, ∃ inv, findInventory s.items li.productId = some inv ∧
        li.quantity ≤ inv.available := by
      intro li hli
      obtain ⟨inv, hf, hnlt⟩ := checkAvailability_eq_nil s.items req hnil li hli
      exact ⟨inv, hf, by omega⟩
    exact reserveLoop_inv oid now req s h hnd hq hav
  · rw [if_neg hemp]
    exact h

/-! ## Reachable states of the inventory service -/

/-- Initial stocked states: every item as created by `POST /api/inventory`
(part_001, lines 258-275) with a nonnegative quantity (`reserved` defaults to
`0`, the save hook sets `available = quantity`), and no reservations yet. -/
def StockedInit (s : InvState) : Prop :=
  (∀ it ∈ s.items, it.reserved = 0 ∧ it.available = it.quantity ∧ 0 ≤ it.quantity) ∧
  s.reservations = []

/-- States reachable from a stocked initial state by arbitrary `Reserve`,
`Confirm`, `Release`, `SweepExpired` operations -- the quantification of the
claim, with no restriction on the reserve requests. -/
inductive ReachableAny : InvState → Prop
  | init (s : InvState) : StockedInit s → ReachableAny s
  | reserve (oid : String) (req : List LineItem) (now : Int) (s : InvState) :
      ReachableAny s → ReachableAny (reserveInventory oid req now s).2
  | confirm (oid : String) (s : InvState) :
      ReachableAny s → ReachableAny (confirmReservations oid s)
  | release (oid : String) (s : InvState) :
      ReachableAny s → ReachableAny (releaseReservation oid s)
  | sweep (now : Int) (s : InvState) :
      ReachableAny s → ReachableAny (sweepExpired now s)

/-- Reachability restricted to well-formed reserve requests: within each
call the line items name pairwise distinct products and request nonnegative
quantities. -/
inductive ReachableWF : InvState → Prop
  | init (s : InvState) : StockedInit s → ReachableWF s
  | reserve (oid : String) (req : List LineItem) (now : Int) (s : InvState) :
      ReachableWF s →
      (req.map (fun x => x.productId)).Nodup →
      (∀ li ∈ req, 0 ≤ li.quantity) →
      ReachableWF (reserveInventory oid req now s).2
  | confirm (oid : String) (s : InvState) :
      ReachableWF s → ReachableWF (confirmReservations oid s)
  | release (oid : String) (s : InvState) :
      ReachableWF s → ReachableWF (releaseReservation oid s)
  | sweep (now : Int) (s : InvState) :
      ReachableWF s → ReachableWF (sweepExpired now s)

theorem stockedInit_ledgerInv (s : InvState) (h : StockedInit s) : LedgerInv s := by
  obtain ⟨hit, hres⟩ := h
  refine ⟨?_, ?_, ?_⟩
  · intro it hmem
    obtain ⟨h1, h2, h3⟩ := hit it hmem
    constructor <;> omega
  · intro it hmem
    rw [hres, activeSum_nil]
    exact (hit it hmem).1
  · intro r hr
    rw [hres] at hr
    simp at hr

theorem reachableWF_ledgerInv : ∀ (s : InvState), ReachableWF s → LedgerInv s := by
  intro s h
  induction h with
  | init s hs => exact stockedInit_ledgerInv s hs
  | reserve oid req now s _ hnd hq ih => exact reserveInventory_inv oid req now s ih hnd hq
  | confirm oid s _ ih => exact confirmReservations_inv oid s ih
  | release oid s _ ih => exact releaseReservation_inv oid s ih
  | sweep now s _ ih => exact sweepExpired_inv now s ih

/-! ## Claim C1 -/

/-- **C1** (amended).  For every `InventoryItem`, in every state reachable
from a stocked initial state by `Reserve`, `Confirm`, `Release` and
`SweepExpired` operations -- where each `Reserve` call's line items name
pairwise distinct products and request nonnegative quantities -- the equation
`available = quantity - reserved` holds, and both `reserved ≥ 0` and
`available ≥ 0` hold.  (As stated, over arbitrary `Reserve` calls, the claim
is false: see the counterexample.) -/
theorem C1_ledger_invariant (s : InvState) (h : ReachableWF s) :
    ∀ it ∈ s.items, it.available = it.quantity - it.reserved ∧
      0 ≤ it.reserved ∧ 0 ≤ it.available := by
  have hinv := reachableWF_ledgerInv s h
  intro it hit
  exact ⟨(hinv.1 it hit).1, LedgerInv.reserved_nonneg s hinv it hit, (hinv.1 it hit).2⟩

/-- Witness for C1: the amended theorem applied to the state reached by
stocking product `p` with 5 units and reserving 2 of them for order `O`. -/
theorem C1_ledger_invariant_witness :
    (⟨"p", "N", 5, 2, 3, 10⟩ : InventoryItem).available =
      (⟨"p", "N", 5, 2, 3, 10⟩ : InventoryItem).quantity -
      (⟨"p", "N", 5, 2, 3, 10⟩ : InventoryItem).reserved ∧
    0 ≤ (⟨"p", "N", 5, 2, 3, 10⟩ : InventoryItem).reserved ∧
    0 ≤ (⟨"p", "N", 5, 2, 3, 10⟩ : InventoryItem).available :=
  C1_ledger_invariant (reserveInventory "O" [⟨"p", 2⟩] 0 ⟨[⟨"p", "N", 5, 0, 5, 10⟩], []⟩).2
    (ReachableWF.reserve "O" [⟨"p", 2⟩] 0 ⟨[⟨"p", "N", 5, 0, 5, 10⟩], []⟩
      (ReachableWF.init _ ⟨by decide, rfl⟩) (by decide) (by decide))
    ⟨"p", "N", 5, 2, 3, 10⟩ (by decide)

/-- Counterexample to C1 as stated.  Two unrestricted `Reserve` calls reach
states that violate the claimed invariants: (a) a request listing the same
product twice (3 + 3 units against 5 available) passes the per-line
availability check and drives `available` to `-1`; (b) a request for a
negative quantity (-3 against 5 available) passes the check
(`5 < -3` is false) and drives `reserved` to `-3`. -/
theorem C1_ledger_invariant_counterexample :
    ReachableAny (reserveInventory "O" [⟨"p", 3⟩, ⟨"p", 3⟩] 0
      ⟨[⟨"p", "N", 5, 0, 5, 10⟩], []⟩).2 ∧
    (reserveInventory "O" [⟨"p", 3⟩, ⟨"p", 3⟩] 0
      ⟨[⟨"p", "N", 5, 0, 5, 10⟩], []⟩).2.items = [⟨"p", "N", 5, 6, -1, 10⟩] ∧
    ReachableAny (reserveInventory "O" [⟨"p", -3⟩] 0
      ⟨[⟨"p", "N", 5, 0, 5, 10⟩], []⟩).2 ∧
    (reserveInventory "O" [⟨"p", -3⟩] 0
      ⟨[⟨"p", "N", 5, 0, 5, 10⟩], []⟩).2.items = [⟨"p", "N", 5, -3, 8, 10⟩] :=
  ⟨ReachableAny.reserve "O" [⟨"p", 3⟩, ⟨"p", 3⟩] 0 ⟨[⟨"p", "N", 5, 0, 5, 10⟩], []⟩
      (ReachableAny.init _ ⟨by decide, rfl⟩),
   by decide,
   ReachableAny.reserve "O" [⟨"p", -3⟩] 0 ⟨[⟨"p", "N", 5, 0, 5, 10⟩], []⟩
      (ReachableAny.init _ ⟨by decide, rfl⟩),
   by decide⟩

/-! ## Claim C4 -/

/-- **C4**.  `Confirm(orderId)` and `Release(orderId)` are idempotent: a
second application produces exactly the same `InventoryItem` and
`Reservation` state as one; reservations already `confirmed` or `released`
are skipped (they survive either operation unchanged), so each reservation
leaves status `reserved` at most once. -/
theorem C4_confirm_release_idempotent (oid : String) (s : InvState) :
    confirmReservations oid (confirmReservations oid s) = confirmReservations oid s ∧
    releaseReservation oid (releaseReservation oid s) = releaseReservation oid s ∧
    (∀ r ∈ s.reservations, r.status ≠ RStatus.reserved →
      r ∈ (confirmReservations oid s).reservations ∧
      r ∈ (releaseReservation oid s).reservations) := by
  refine ⟨confirmReservations_idem_eq oid s, releaseReservation_idem_eq oid s, ?_⟩
  intro r hr hst
  have hb : (r.orderId == oid && r.status == RStatus.reserved) = false := by
    cases hcase : (r.orderId == oid && r.status == RStatus.reserved) with
    | false => rfl
    | true =>
      have h12 := (Bool.and_eq_true _ _).mp hcase
      exact absurd (beq_iff_eq.mp h12.2) hst
  exact ⟨applyGo_preserves_nonmatching _ _ _ s.reservations s.items r hr hb,
         applyGo_preserves_nonmatching _ _ _ s.reservations s.items r hr hb⟩

/-- Witness for C4 at a concrete ledger holding one active and one released
reservation for order `O`. -/
theorem C4_confirm_release_idempotent_witness :
    confirmReservations "O" (confirmReservations "O"
      ⟨[⟨"p", "N", 5, 1, 4, 10⟩],
       [⟨"O", "p", 1, RStatus.reserved, 0⟩, ⟨"O", "p", 2, RStatus.released, 0⟩]⟩) =
    confirmReservations "O"
      ⟨[⟨"p", "N", 5, 1, 4, 10⟩],
       [⟨"O", "p", 1, RStatus.reserved, 0⟩, ⟨"O", "p", 2, RStatus.released, 0⟩]⟩ ∧
    (⟨"O", "p", 2, RStatus.released, 0⟩ : Reservation) ∈
      (confirmReservations "O"
        ⟨[⟨"p", "N", 5, 1, 4, 10⟩],
         [⟨"O", "p", 1, RStatus.reserved, 0⟩, ⟨"O", "p", 2, RStatus.released, 0⟩]⟩).reservations :=
  ⟨(C4_confirm_release_idempotent "O" _).1,
   ((C4_confirm_release_idempotent "O"
      ⟨[⟨"p", "N", 5, 1, 4, 10⟩],
       [⟨"O", "p", 1, RStatus.reserved, 0⟩, ⟨"O", "p", 2, RStatus.released, 0⟩]⟩).2.2
     ⟨"O", "p", 2, RStatus.released, 0⟩ (by decide) (by decide)).1⟩

/-! ## Claim C5 -/

theorem applyGo_cons_some (upd : InventoryItem → Int → InventoryItem) (ns : RStatus)
    (oid : String) (items : List InventoryItem) (r : Reservation) (rest : List Reservation)
    (inv : InventoryItem)
    (hg : (r.orderId == oid && r.status == RStatus.reserved) = true)
    (hf : findInventory items r.productId = some inv) :
    applyGo upd ns oid items (r :: rest) =
      ((applyGo upd ns oid (putInventory items (preSave (upd inv r.quantity))) rest).1,
       { r with status := ns } ::
         (applyGo upd ns oid (putInventory items (preSave (upd inv r.quantity))) rest).2) := by
  simp only [applyGo]
  rw [if_pos hg, hf]

theorem applyGo_append (upd : InventoryItem → Int → InventoryItem) (ns : RStatus)
    (oid : String) :
    ∀ (l1 l2 : List Reservation) (items : List InventoryItem),
      applyGo upd ns oid items (l1 ++ l2) =
        ((applyGo upd ns oid (applyGo upd ns oid items l1).1 l2).1,
         (applyGo upd ns oid items l1).2 ++
           (applyGo upd ns oid (applyGo upd ns oid items l1).1 l2).2)
  | [], l2, items => rfl
  | r :: rest, l2, items => by
    by_cases hg : (r.orderId == oid && r.status == RStatus.reserved) = true
    · cases hf : findInventory items r.productId with
      | some inv =>
        have IH := applyGo_append upd ns oid rest l2
          (putInventory items (preSave (upd inv r.quantity)))
        have h1 : applyGo upd ns oid items ((r :: rest) ++ l2) =
            ((applyGo upd ns oid (putInventory items (preSave (upd inv r.quantity)))
                (rest ++ l2)).1,
             { r with status := ns } ::
               (applyGo upd ns oid (putInventory items (preSave (upd inv r.quantity)))
                 (rest ++ l2)).2) := by
          rw [List.cons_append]
          exact applyGo_cons_some upd ns oid items r (rest ++ l2) inv hg hf
        have h2 := applyGo_cons_some upd ns oid items r rest inv hg hf
        rw [h1, h2, IH]
        rfl
      | none =>
        have IH := applyGo_append upd ns oid rest l2 items
        have h1 : applyGo upd ns oid items ((r :: rest) ++ l2) =
            ((applyGo upd ns oid items (rest ++ l2)).1,
             r :: (applyGo upd ns oid items (rest ++ l2)).2) := by
          rw [List.cons_append]
          simp only [applyGo]
          rw [if_pos hg, hf]
        have h2 : applyGo upd ns oid items (r :: rest) =
            ((applyGo upd ns oid items rest).1,
             r :: (applyGo upd ns oid items rest).2) := by
          simp only [applyGo]
          rw [if_pos hg, hf]
        rw [h1, h2, IH]
        rfl
    · have IH := applyGo_append upd ns oid rest l2 items
      have h1 : applyGo upd ns oid items ((r :: rest) ++ l2) =
          ((applyGo upd ns oid items (rest ++ l2)).1,
           r :: (applyGo upd ns oid items (rest ++ l2)).2) := by
        rw [List.cons_append]
        simp only [applyGo]
        rw [if_neg hg]
      have h2 : applyGo upd ns oid items (r :: rest) =
          ((applyGo upd ns oid items rest).1,
           r :: (applyGo upd ns oid items rest).2) := by
        simp only [applyGo]
        rw [if_neg hg]
      rw [h1, h2, IH]
      rfl

/-- **C5**.  Round trip: in a consistent state where product `p` is stocked
with enough availability for quantity `q` and order `oid` holds no active
reservation, `Reserve(oid, [{p, q}])` only increments `reserved` (`quantity`
is untouched, `available` drops by `q` via the save hook), and a following
`Release(oid)` restores product `p`'s document -- `reserved`, `available`
and `quantity` -- to exactly its pre-reservation value. -/
theorem C5_reserve_release_round_trip (p oid : String) (q now : Int) (s : InvState)
    (inv : InventoryItem)
    (hf : findInventory s.items p = some inv)
    (hBE : inv.available = inv.quantity - inv.reserved)
    (hq : ¬ inv.available < q)
    (hnores : ∀ r ∈ s.reservations, ¬ (r.orderId = oid ∧ r.status = RStatus.reserved)) :
    findInventory (reserveInventory oid [⟨p, q⟩] now s).2.items p =
      some (preSave { inv with reserved := inv.reserved + q }) ∧
    (preSave { inv with reserved := inv.reserved + q }).quantity = inv.quantity ∧
    findInventory (releaseReservation oid (reserveInventory oid [⟨p, q⟩] now s).2).items p =
      some inv := by
  have hpid : inv.productId = p := (findInventory_mem s.items p inv hf).2
  have hnil : checkAvailability s.items [⟨p, q⟩] = [] := by
    rw [checkAvailability_cons_ok s.items ⟨p, q⟩ [] inv hf hq]
    rfl
  have hbranch : reserveInventory oid [⟨p, q⟩] now s =
      (ReserveOutcome.ok (reserveLoop oid now [⟨p, q⟩] s).2,
       (reserveLoop oid now [⟨p, q⟩] s).1) := by
    simp only [reserveInventory]
    rw [if_pos (List.isEmpty_iff.mpr hnil)]
  have hloop : reserveLoop oid now [⟨p, q⟩] s =
      (reserveStepState oid now ⟨p, q⟩ inv s, [mkReservation oid now ⟨p, q⟩]) := by
    rw [reserveLoop_cons_some oid now ⟨p, q⟩ [] s inv hf]
    rfl
  have hs1 : (reserveInventory oid [⟨p, q⟩] now s).2 =
      reserveStepState oid now ⟨p, q⟩ inv s := by
    rw [hbranch, hloop]
  have hvpid : (preSave { inv with reserved := inv.reserved + q }).productId = p := hpid
  have hfind1 : findInventory
      (putInventory s.items (preSave { inv with reserved := inv.reserved + q })) p =
      some (preSave { inv with reserved := inv.reserved + q }) :=
    findInventory_putInventory_self _ _ _ (by rw [hf]; rfl) hvpid
  refine ⟨by rw [hs1]; exact hfind1, rfl, ?_⟩
  rw [hs1]
  have hb : ∀ r ∈ s.reservations,
      (r.orderId == oid && r.status == RStatus.reserved) = false := by
    intro r hr
    cases hcase : (r.orderId == oid && r.status == RStatus.reserved) with
    | false => rfl
    | true =>
      have h12 := (Bool.and_eq_true _ _).mp hcase
      exact absurd ⟨beq_iff_eq.mp h12.1, beq_iff_eq.mp h12.2⟩ (hnores r hr)
  have hpre := applyGo_noMatch (fun x y => { x with reserved := x.reserved - y })
    RStatus.released oid s.reservations
    (putInventory s.items (preSave { inv with reserved := inv.reserved + q })) hb
  have hgm : ((mkReservation oid now ⟨p, q⟩).orderId == oid &&
      (mkReservation oid now ⟨p, q⟩).status == RStatus.reserved) = true := by
    show (oid == oid && RStatus.reserved == RStatus.reserved) = true
    simp
  have hfm : findInventory
      (putInventory s.items (preSave { inv with reserved := inv.reserved + q }))
      (mkReservation oid now ⟨p, q⟩).productId =
      some (preSave { inv with reserved := inv.reserved + q }) := hfind1
  have hstep := applyGo_cons_some (fun x y => { x with reserved := x.reserved - y })
    RStatus.released oid
    (putInventory s.items (preSave { inv with reserved := inv.reserved + q }))
    (mkReservation oid now ⟨p, q⟩) []
    (preSave { inv with reserved := inv.reserved + q }) hgm hfm
  show findInventory (applyGo (fun x y => { x with reserved := x.reserved - y })
    RStatus.released oid
    (putInventory s.items (preSave { inv with reserved := inv.reserved + q }))
    (s.reservations ++ [mkReservation oid now ⟨p, q⟩])).1 p = some inv
  rw [applyGo_append, hpre, hstep]
  show findInventory (putInventory
    (putInventory s.items (preSave { inv with reserved := inv.reserved + q }))
    (preSave { (preSave { inv with reserved := inv.reserved + q }) with
      reserved := (preSave { inv with reserved := inv.reserved + q }).reserved - q })) p =
    some inv
  have hrestore : preSave { (preSave { inv with reserved := inv.reserved + q }) with
      reserved := (preSave { inv with reserved := inv.reserved + q }).reserved - q } = inv := by
    obtain ⟨pid, name, qty, res, avail, price⟩ := inv
    have hav : avail = qty - res := hBE
    show InventoryItem.mk pid name qty (res + q - q) (qty - (res + q - q)) price =
      InventoryItem.mk pid name qty res avail price
    have h1 : res + q - q = res := by omega
    rw [h1, ← hav]
  rw [hrestore]
  refine findInventory_putInventory_self _ _ _ ?_ hpid
  rw [hfind1]
  rfl

/-- Witness for C5: reserving 2 of 4 available units of `p` for order `O`
and releasing `O` restores the item document `(5, 1, 4)` exactly. -/
theorem C5_reserve_release_round_trip_witness :
    findInventory (reserveInventory "O" [⟨"p", 2⟩] 0
        ⟨[⟨"p", "N", 5, 1, 4, 10⟩], [⟨"Q", "p", 1, RStatus.reserved, 0⟩]⟩).2.items "p" =
      some ⟨"p", "N", 5, 3, 2, 10⟩ ∧
    (⟨"p", "N", 5, 3, 2, 10⟩ : InventoryItem).quantity = 5 ∧
    findInventory (releaseReservation "O" (reserveInventory "O" [⟨"p", 2⟩] 0
        ⟨[⟨"p", "N", 5, 1, 4, 10⟩], [⟨"Q", "p", 1, RStatus.reserved, 0⟩]⟩).2).items "p" =
      some ⟨"p", "N", 5, 1, 4, 10⟩ :=
  C5_reserve_release_round_trip "p" "O" 2 0
    ⟨[⟨"p", "N", 5, 1, 4, 10⟩], [⟨"Q", "p", 1, RStatus.reserved, 0⟩]⟩
    ⟨"p", "N", 5, 1, 4, 10⟩ (by decide) (by decide) (by decide) (by decide)

/-! ## Claim C6 -/

/-- **C6** (amended).  `SweepExpired(now)` selects exactly the reservations
with status `reserved` and expiry **strictly before** `now` (the query uses
`$lt`), and invokes `Release` once **per expired reservation** -- possibly
several times for the same order -- rather than grouping by order id; the
repeat invocations are harmless because `Release` is idempotent. -/
theorem C6_sweep_per_reservation (now : Int) (s : InvState) :
    (∀ r, r ∈ expiredReservations now s ↔
      r ∈ s.reservations ∧ r.status = RStatus.reserved ∧ r.expiresAt < now) ∧
    sweepReleaseCalls now s = (expiredReservations now s).map (fun r => r.orderId) ∧
    (sweepReleaseCalls now s).length = (expiredReservations now s).length ∧
    sweepExpired now s =
      (sweepReleaseCalls now s).foldl (fun t o => releaseReservation o t) s ∧
    (∀ (t : InvState) (o : String),
      releaseReservation o (releaseReservation o t) = releaseReservation o t) := by
  refine ⟨?_, rfl, by simp [sweepReleaseCalls], ?_,
    fun t o => releaseReservation_idem_eq o t⟩
  · intro r
    simp [expiredReservations, List.mem_filter, and_assoc]
  · show sweepExpired now s =
      ((expiredReservations now s).map (fun r => r.orderId)).foldl
        (fun t o => releaseReservation o t) s
    rw [List.foldl_map]
    rfl

/-- Counterexample to C6 as stated.  With two expired reservations belonging
to the same order `O` and a third reservation whose expiry equals `now`, the
sweep invokes `Release` twice for the single distinct affected order
(`["O", "O"]`, not once), and the reservation with `expiresAt = now` is not
selected (the claim's `expiry ≤ now` would select it): it stays `reserved`
while the two strictly expired ones are released. -/
theorem C6_sweep_counterexample :
    sweepReleaseCalls 5 ⟨[⟨"p", "N", 10, 6, 4, 1⟩],
      [⟨"O", "p", 2, RStatus.reserved, 0⟩, ⟨"O", "p", 3, RStatus.reserved, 0⟩,
       ⟨"Q", "p", 1, RStatus.reserved, 5⟩]⟩ = ["O", "O"] ∧
    (sweepExpired 5 ⟨[⟨"p", "N", 10, 6, 4, 1⟩],
      [⟨"O", "p", 2, RStatus.reserved, 0⟩, ⟨"O", "p", 3, RStatus.reserved, 0⟩,
       ⟨"Q", "p", 1, RStatus.reserved, 5⟩]⟩).reservations =
      [⟨"O", "p", 2, RStatus.released, 0⟩, ⟨"O", "p", 3, RStatus.released, 0⟩,
       ⟨"Q", "p", 1, RStatus.reserved, 5⟩] :=
  ⟨by decide, by decide⟩

/-- Witness for C6 at concrete states: a strictly expired reserved
reservation is selected, and a double release equals a single one. -/
theorem C6_sweep_per_reservation_witness :
    (⟨"O", "p", 2, RStatus.reserved, 0⟩ : Reservation) ∈
      expiredReservations 5 ⟨[], [⟨"O", "p", 2, RStatus.reserved, 0⟩]⟩ ∧
    releaseReservation "O" (releaseReservation "O" ⟨[], []⟩) =
      releaseReservation "O" ⟨[], []⟩ :=
  ⟨((C6_sweep_per_reservation 5 ⟨[], [⟨"O", "p", 2, RStatus.reserved, 0⟩]⟩).1
      ⟨"O", "p", 2, RStatus.reserved, 0⟩).mpr ⟨by decide, by decide, by decide⟩,
   (C6_sweep_per_reservation 5 ⟨[], []⟩).2.2.2.2 ⟨[], []⟩ "O"⟩

/-! ## Claim C3 -/

/-- **C3** (amended).  If any requested line is short (or its product is
missing), `Reserve` mutates nothing and returns the full shortfall report,
which lists every missing product as `(requested, 0)` and every short
product as `(requested, available)`.  If every line is satisfiable, it
creates one `Reservation` **per requested line item** (per `(order,
product)` only when the request's product ids are distinct) with status
`reserved` and expiry `now + 15` minutes, appends them to the store,
increments each requested product's `reserved` by the line's quantity
(recomputing `available` via the save hook; products not in the request are
untouched), and returns the created reservations. -/
theorem C3_reserve_all_or_nothing (oid : String) (req : List LineItem) (now : Int)
    (s : InvState) :
    (checkAvailability s.items req ≠ [] →
      reserveInventory oid req now s =
        (ReserveOutcome.insufficient (checkAvailability s.items req), s) ∧
      (∀ li ∈ req, findInventory s.items li.productId = none →
        (⟨li.productId, li.quantity, 0⟩ : Shortfall) ∈ checkAvailability s.items req) ∧
      (∀ li ∈ req, ∀ inv, findInventory s.items li.productId = some inv →
        inv.available < li.quantity →
        (⟨li.productId, li.quantity, inv.available⟩ : Shortfall) ∈
          checkAvailability s.items req)) ∧
    (checkAvailability s.items req = [] →
      (reserveInventory oid req now s).1 =
        ReserveOutcome.ok (req.map (fun li => mkReservation oid now li)) ∧
      (reserveInventory oid req now s).2.reservations =
        s.reservations ++ req.map (fun li => mkReservation oid now li) ∧
      (∀ pid, pid ∉ req.map (fun x => x.productId) →
        findInventory (reserveInventory oid req now s).2.items pid =
          findInventory s.items pid) ∧
      ((req.map (fun x => x.productId)).Nodup →
        ∀ li ∈ req,
          findInventory (reserveInventory oid req now s).2.items li.productId =
            (findInventory s.items li.productId).map
              (fun inv => preSave { inv with reserved := inv.reserved + li.quantity }))) := by
  constructor
  · intro hne
    refine ⟨?_, fun li hli hf => checkAvailability_mem_missing s.items req li hli hf,
      fun li hli inv hf hlt => checkAvailability_mem_short s.items req li inv hli hf hlt⟩
    simp only [reserveInventory]
    rw [if_neg (fun hemp => hne (List.isEmpty_iff.mp hemp))]
  · intro hnil
    have hpres : ∀ li ∈ req, (findInventory s.items li.productId).isSome := by
      intro li hli
      obtain ⟨inv, hf, _⟩ := checkAvailability_eq_nil s.items req hnil li hli
      rw [hf]; rfl
    have hbranch : reserveInventory oid req now s =
        (ReserveOutcome.ok (reserveLoop oid now req s).2,
         (reserveLoop oid now req s).1) := by
      simp only [reserveInventory]
      rw [if_pos (List.isEmpty_iff.mpr hnil)]
    have hspec := reserveLoop_spec oid now req s hpres
    refine ⟨?_, ?_, ?_, ?_⟩
    · rw [hbranch]
      show ReserveOutcome.ok (reserveLoop oid now req s).2 = _
      rw [hspec.1]
    · rw [hbranch]
      show (reserveLoop oid now req s).1.reservations = _
      rw [hspec.2.1, hspec.1]
    · intro pid hpid
      rw [hbranch]
      exact reserveLoop_untouched oid now req s pid hpid
    · intro hnd li hli
      rw [hbranch]
      exact reserveLoop_touched oid now req s li hnd hpres hli

/-- Counterexample to C3 as stated.  A satisfiable request listing product
`p` twice creates **two** reservations for the single pair `(O, p)`, not
"one Reservation per (order, product)" -- and both are returned. -/
theorem C3_reserve_all_or_nothing_counterexample :
    (reserveInventory "O" [⟨"p", 1⟩, ⟨"p", 1⟩] 0
        ⟨[⟨"p", "N", 5, 0, 5, 10⟩], []⟩).2.reservations =
      [⟨"O", "p", 1, RStatus.reserved, 900000⟩,
       ⟨"O", "p", 1, RStatus.reserved, 900000⟩] ∧
    (reserveInventory "O" [⟨"p", 1⟩, ⟨"p", 1⟩] 0
        ⟨[⟨"p", "N", 5, 0, 5, 10⟩], []⟩).1 =
      ReserveOutcome.ok
        [⟨"O", "p", 1, RStatus.reserved, 900000⟩,
         ⟨"O", "p", 1, RStatus.reserved, 900000⟩] :=
  ⟨by decide, by decide⟩

/-- Witness for C3: a satisfiable single-line request returns the created
reservation, and a request for an unknown product is rejected with no
mutation. -/
theorem C3_reserve_all_or_nothing_witness :
    (reserveInventory "O" [⟨"p", 2⟩] 0 ⟨[⟨"p", "N", 5, 0, 5, 10⟩], []⟩).1 =
      ReserveOutcome.ok (([⟨"p", 2⟩] : List LineItem).map
        (fun li => mkReservation "O" 0 li)) ∧
    reserveInventory "O" [⟨"x", 9⟩] 0 ⟨[⟨"p", "N", 5, 0, 5, 10⟩], []⟩ =
      (ReserveOutcome.insufficient
        (checkAvailability [⟨"p", "N", 5, 0, 5, 10⟩] [⟨"x", 9⟩]),
       ⟨[⟨"p", "N", 5, 0, 5, 10⟩], []⟩) :=
  ⟨((C3_reserve_all_or_nothing "O" [⟨"p", 2⟩] 0
      ⟨[⟨"p", "N", 5, 0, 5, 10⟩], []⟩).2 (by decide)).1,
   ((C3_reserve_all_or_nothing "O" [⟨"x", 9⟩] 0
      ⟨[⟨"p", "N", 5, 0, 5, 10⟩], []⟩).1 (by decide)).1⟩

/-! ## Claim C10 -/

/-- **C10**.  A requested line whose product id has no `InventoryItem`
record is treated as a normal shortfall -- reported as insufficient with
`available = 0`, not raised as an error -- and therefore the whole request
is rejected with no mutation. -/
theorem C10_missing_product_shortfall (oid : String) (req : List LineItem) (now : Int)
    (s : InvState) (li : LineItem) (hmem : li ∈ req)
    (hf : findInventory s.items li.productId = none) :
    (⟨li.productId, li.quantity, 0⟩ : Shortfall) ∈ checkAvailability s.items req ∧
    reserveInventory oid req now s =
      (ReserveOutcome.insufficient (checkAvailability s.items req), s) := by
  have hm := checkAvailability_mem_missing s.items req li hmem hf
  have hne : checkAvailability s.items req ≠ [] := by
    intro h
    rw [h] at hm
    simp at hm
  refine ⟨hm, ?_⟩
  simp only [reserveInventory]
  rw [if_neg (fun hemp => hne (List.isEmpty_iff.mp hemp))]

/-- Witness for C10: requesting 2 units of unknown product `x` yields the
shortfall entry `(x, 2, 0)` and rejects the whole request unchanged. -/
theorem C10_missing_product_shortfall_witness :
    (⟨"x", 2, 0⟩ : Shortfall) ∈
      checkAvailability (⟨[⟨"p", "N", 5, 0, 5, 10⟩], []⟩ : InvState).items [⟨"x", 2⟩] ∧
    reserveInventory "O" [⟨"x", 2⟩] 0 ⟨[⟨"p", "N", 5, 0, 5, 10⟩], []⟩ =
      (ReserveOutcome.insufficient
        (checkAvailability (⟨[⟨"p", "N", 5, 0, 5, 10⟩], []⟩ : InvState).items [⟨"x", 2⟩]),
       ⟨[⟨"p", "N", 5, 0, 5, 10⟩], []⟩) :=
  C10_missing_product_shortfall "O" [⟨"x", 2⟩] 0 ⟨[⟨"p", "N", 5, 0, 5, 10⟩], []⟩
    ⟨"x", 2⟩ (by decide) (by decide)

/-! ## Order store lemmas -/

theorem findOrder_some (l : List Order) (oid : String) (o : Order)
    (h : findOrder l oid = some o) : o ∈ l ∧ o.orderId = oid := by
  refine ⟨List.mem_of_find?_eq_some h, ?_⟩
  have := List.find?_some h
  simpa using this

theorem findOrder_putOrder_self (l : List Order) (v : Order) (oid : String)
    (hex : (findOrder l oid).isSome) (hv : v.orderId = oid) :
    findOrder (putOrder l v) oid = some v := by
  induction l with
  | nil => simp [findOrder] at hex
  | cons x xs ih =>
    by_cases h2 : x.orderId = oid
    · have h1 : x.orderId = v.orderId := by rw [h2, hv]
      simp only [putOrder, List.map_cons, findOrder]
      rw [if_pos (beq_iff_eq.mpr h1), List.find?_cons_of_pos _ (by simpa using hv)]
    · have h1 : ¬ x.orderId = v.orderId := by rw [hv]; exact h2
      have hex' : (findOrder xs oid).isSome := by
        simp only [findOrder] at hex ⊢
        rwa [List.find?_cons_of_neg _ (by simpa using h2)] at hex
      simp only [putOrder, List.map_cons, findOrder] at ih ⊢
      rw [if_neg (by simpa using h1), List.find?_cons_of_neg _ (by simpa using h2)]
      exact ih hex'

theorem putOrder_putOrder (l : List Order) (o : Order) :
    putOrder (putOrder l o) o = putOrder l o := by
  simp only [putOrder, List.map_map]
  refine List.map_congr_left ?_
  intro x _
  by_cases h : x.orderId = o.orderId
  · simp [Function.comp, h]
  · simp [Function.comp, h]

/-! ## Branch equations of the order service handlers -/

theorem handlePaymentProcessed_none (p : PaymentPayload) (l : List Order)
    (hfo : findOrder l p.orderId = none) :
    handlePaymentProcessed p l = l := by
  simp only [handlePaymentProcessed]
  rw [hfo]

theorem handlePaymentProcessed_success (p : PaymentPayload) (l : List Order) (o : Order)
    (hfo : findOrder l p.orderId = some o)
    (hst : (p.status == "success") = true) :
    handlePaymentProcessed p l =
      putOrder l { o with status := OrderStatus.confirmed, paymentId := some p.paymentId } := by
  simp only [handlePaymentProcessed]
  rw [hfo]
  show (if (p.status == "success") = true
      then putOrder l { o with status := OrderStatus.confirmed, paymentId := some p.paymentId }
      else putOrder l { o with status := OrderStatus.failed }) =
    putOrder l { o with status := OrderStatus.confirmed, paymentId := some p.paymentId }
  rw [if_pos hst]

theorem handlePaymentProcessed_failed (p : PaymentPayload) (l : List Order) (o : Order)
    (hfo : findOrder l p.orderId = some o)
    (hst : ¬ (p.status == "success") = true) :
    handlePaymentProcessed p l = putOrder l { o with status := OrderStatus.failed } := by
  simp only [handlePaymentProcessed]
  rw [hfo]
  show (if (p.status == "success") = true
      then putOrder l { o with status := OrderStatus.confirmed, paymentId := some p.paymentId }
      else putOrder l { o with status := OrderStatus.failed }) =
    putOrder l { o with status := OrderStatus.failed }
  rw [if_neg hst]

theorem handleInventoryUpdated_none (ip : InventoryPayload) (l : List Order)
    (hfo : findOrder l ip.orderId = none) :
    handleInventoryUpdated ip l = l := by
  simp only [handleInventoryUpdated]
  rw [hfo]

theorem handleInventoryUpdated_reserved (ip : InventoryPayload) (l : List Order) (o : Order)
    (hfo : findOrder l ip.orderId = some o)
    (hr : (ip.status == "reserved") = true) :
    handleInventoryUpdated ip l = l := by
  simp only [handleInventoryUpdated]
  rw [hfo]
  show (if (ip.status == "reserved") = true then l
      else if (ip.status == "insufficient") = true
      then putOrder l { o with status := OrderStatus.cancelled }
      else l) = l
  rw [if_pos hr]

theorem handleInventoryUpdated_insufficient (ip : InventoryPayload) (l : List Order)
    (o : Order) (hfo : findOrder l ip.orderId = some o)
    (hr : ¬ (ip.status == "reserved") = true)
    (hi : (ip.status == "insufficient") = true) :
    handleInventoryUpdated ip l = putOrder l { o with status := OrderStatus.cancelled } := by
  simp only [handleInventoryUpdated]
  rw [hfo]
  show (if (ip.status == "reserved") = true then l
      else if (ip.status == "insufficient") = true
      then putOrder l { o with status := OrderStatus.cancelled }
      else l) = putOrder l { o with status := OrderStatus.cancelled }
  rw [if_neg hr, if_pos hi]

theorem handleInventoryUpdated_other (ip : InventoryPayload) (l : List Order) (o : Order)
    (hfo : findOrder l ip.orderId = some o)
    (hr : ¬ (ip.status == "reserved") = true)
    (hi : ¬ (ip.status == "insufficient") = true) :
    handleInventoryUpdated ip l = l := by
  simp only [handleInventoryUpdated]
  rw [hfo]
  show (if (ip.status == "reserved") = true then l
      else if (ip.status == "insufficient") = true
      then putOrder l { o with status := OrderStatus.cancelled }
      else l) = l
  rw [if_neg hr, if_neg hi]

/-! ## Claim C2 -/

/-- **C2** (amended).  The order service's event reactions set the status
purely as a function of the delivered event, never consulting the current
status: `payment.processed` sets `confirmed` (recording the payment id) on
`"success"` and `failed` on anything else; `inventory.updated` with
`"insufficient"` sets `cancelled`.  Redelivering the same event twice leaves
the store exactly as after the first delivery, and an event for an unknown
order id changes nothing.  Terminal statuses are **not** enforced: a
conflicting event delivered to an order already in a terminal status
overwrites it (see the counterexample). -/
theorem C2_status_from_event (p : PaymentPayload) (ip : InventoryPayload)
    (l : List Order) :
    (∀ o, findOrder l p.orderId = some o →
      findOrder (handlePaymentProcessed p l) p.orderId =
        some (if p.status == "success"
          then { o with status := OrderStatus.confirmed, paymentId := some p.paymentId }
          else { o with status := OrderStatus.failed })) ∧
    handlePaymentProcessed p (handlePaymentProcessed p l) = handlePaymentProcessed p l ∧
    (∀ o, findOrder l ip.orderId = some o → ip.status = "insufficient" →
      findOrder (handleInventoryUpdated ip l) ip.orderId =
        some { o with status := OrderStatus.cancelled }) ∧
    handleInventoryUpdated ip (handleInventoryUpdated ip l) =
      handleInventoryUpdated ip l ∧
    (findOrder l p.orderId = none → handlePaymentProcessed p l = l) := by
  refine ⟨?_, ?_, ?_, ?_, fun h => handlePaymentProcessed_none p l h⟩
  · intro o hfo
    have hoid := (findOrder_some l p.orderId o hfo).2
    by_cases hst : (p.status == "success") = true
    · rw [handlePaymentProcessed_success p l o hfo hst, if_pos hst]
      exact findOrder_putOrder_self l _ p.orderId (by rw [hfo]; rfl) hoid
    · rw [handlePaymentProcessed_failed p l o hfo hst, if_neg hst]
      exact findOrder_putOrder_self l _ p.orderId (by rw [hfo]; rfl) hoid
  · cases hfo : findOrder l p.orderId with
    | none =>
      rw [handlePaymentProcessed_none p l hfo, handlePaymentProcessed_none p l hfo]
    | some o =>
      obtain ⟨_, hoid⟩ := findOrder_some l p.orderId o hfo
      obtain ⟨a, b, c⟩ := o
      by_cases hst : (p.status == "success") = true
      · have h1 := handlePaymentProcessed_success p l ⟨a, b, c⟩ hfo hst
        have hfo2 := findOrder_putOrder_self l
          ⟨a, OrderStatus.confirmed, some p.paymentId⟩ p.orderId (by rw [hfo]; rfl) hoid
        have h2 := handlePaymentProcessed_success p
          (putOrder l ⟨a, OrderStatus.confirmed, some p.paymentId⟩)
          ⟨a, OrderStatus.confirmed, some p.paymentId⟩ hfo2 hst
        rw [h1, h2]
        exact putOrder_putOrder l _
      · have h1 := handlePaymentProcessed_failed p l ⟨a, b, c⟩ hfo hst
        have hfo2 := findOrder_putOrder_self l
          ⟨a, OrderStatus.failed, c⟩ p.orderId (by rw [hfo]; rfl) hoid
        have h2 := handlePaymentProcessed_failed p
          (putOrder l ⟨a, OrderStatus.failed, c⟩)
          ⟨a, OrderStatus.failed, c⟩ hfo2 hst
        rw [h1, h2]
        exact putOrder_putOrder l _
  · intro o hfo hins
    have hr : ¬ (ip.status == "reserved") = true := by rw [hins]; decide
    have hi : (ip.status == "insufficient") = true := by rw [hins]; decide
    rw [handleInventoryUpdated_insufficient ip l o hfo hr hi]
    exact findOrder_putOrder_self l _ ip.orderId (by rw [hfo]; rfl)
      (findOrder_some l ip.orderId o hfo).2
  · cases hfo : findOrder l ip.orderId with
    | none =>
      rw [handleInventoryUpdated_none ip l hfo, handleInventoryUpdated_none ip l hfo]
    | some o =>
      obtain ⟨_, hoid⟩ := findOrder_some l ip.orderId o hfo
      by_cases hr : (ip.status == "reserved") = true
      · rw [handleInventoryUpdated_reserved ip l o hfo hr,
          handleInventoryUpdated_reserved ip l o hfo hr]
      · by_cases hi : (ip.status == "insufficient") = true
        · obtain ⟨a, b, c⟩ := o
          have h1 := handleInventoryUpdated_insufficient ip l ⟨a, b, c⟩ hfo hr hi
          have hfo2 := findOrder_putOrder_self l
            ⟨a, OrderStatus.cancelled, c⟩ ip.orderId (by rw [hfo]; rfl) hoid
          have h2 := handleInventoryUpdated_insufficient ip
            (putOrder l ⟨a, OrderStatus.cancelled, c⟩)
            ⟨a, OrderStatus.cancelled, c⟩ hfo2 hr hi
          rw [h1, h2]
          exact putOrder_putOrder l _
        · rw [handleInventoryUpdated_other ip l o hfo hr hi,
            handleInventoryUpdated_other ip l o hfo hr hi]

/-- Counterexample to C2 as stated.  `confirmed` is claimed terminal, yet a
`payment.processed` failure event delivered to a confirmed order overwrites
its status to `failed`, and an `inventory.updated` shortfall event delivered
to a confirmed order overwrites it to `cancelled`: the handlers never check
the current status, so transitions out of terminal statuses do occur. -/
theorem C2_status_from_event_counterexample :
    handlePaymentProcessed ⟨"O", "failed", "PAY-2"⟩
      [⟨"O", OrderStatus.confirmed, some "PAY-1"⟩] =
      [⟨"O", OrderStatus.failed, some "PAY-1"⟩] ∧
    handleInventoryUpdated ⟨"O", "insufficient"⟩
      [⟨"O", OrderStatus.confirmed, some "PAY-1"⟩] =
      [⟨"O", OrderStatus.cancelled, some "PAY-1"⟩] :=
  ⟨by decide, by decide⟩

/-- Witness for C2: a success event confirms a pending order and records the
payment id. -/
theorem C2_status_from_event_witness :
    findOrder (handlePaymentProcessed ⟨"O", "success", "P1"⟩
        [⟨"O", OrderStatus.pending, none⟩]) "O" =
      some (if ("success" : String) == "success"
        then { (⟨"O", OrderStatus.pending, none⟩ : Order) with
            status := OrderStatus.confirmed, paymentId := some "P1" }
        else { (⟨"O", OrderStatus.pending, none⟩ : Order) with
            status := OrderStatus.failed }) :=
  (C2_status_from_event ⟨"O", "success", "P1"⟩ ⟨"O", "reserved"⟩
    [⟨"O", OrderStatus.pending, none⟩]).1 ⟨"O", OrderStatus.pending, none⟩ (by decide)

/-! ## Claim C7 -/

/-- **C7** (amended).  When a `payment.processed` event names an order id
with no stored `Order`, the handler returns without error, the consume
callback acknowledges the message unconditionally, and the order store is
left unchanged: the event is silently dropped and acknowledged, not
rejected or retried, so the transition is never applied later. -/
theorem C7_missing_order_dropped_and_acked (p : PaymentPayload) (l : List Order)
    (h : findOrder l p.orderId = none) :
    consumePaymentProcessed p l = (l, true) := by
  show (handlePaymentProcessed p l, true) = (l, true)
  rw [handlePaymentProcessed_none p l h]

/-- Counterexample to C7 as stated.  A success event arriving before its
order exists is acknowledged (`true`) with the store unchanged -- the exact
"silently drop and acknowledge" behaviour the claim rules out. -/
theorem C7_missing_order_counterexample :
    consumePaymentProcessed ⟨"O", "success", "P1"⟩ [] = ([], true) := by
  decide

/-- Witness for C7 at a store that holds a different order. -/
theorem C7_missing_order_dropped_and_acked_witness :
    consumePaymentProcessed ⟨"Z", "failed", "P9"⟩ [⟨"O", OrderStatus.pending, none⟩] =
      ([⟨"O", OrderStatus.pending, none⟩], true) :=
  C7_missing_order_dropped_and_acked ⟨"Z", "failed", "P9"⟩
    [⟨"O", OrderStatus.pending, none⟩] (by decide)

/-! ## Payment service lemmas -/

/-- Functional specification of `processOrderPayment` when the generated
payment id does not collide with an existing row: exactly one row is
inserted and exactly one `payment.processed` event is published, agreeing on
payment id, status and transaction id. -/
theorem processOrderPayment_spec (gw : Bool) (now : Nat) (od : OrderData)
    (db : List Payment)
    (hfresh : ∀ rec ∈ db, rec.paymentId ≠ "PAY-" ++ toString now) :
    processOrderPayment gw now od db =
      (db ++ [⟨"PAY-" ++ toString now, od.orderId, od.userId, od.totalAmount,
        if gw then "success" else "failed",
        if gw then some ("TXN-" ++ toString now) else none⟩],
       [⟨od.orderId, "PAY-" ++ toString now, if gw then "success" else "failed",
        od.totalAmount, if gw then some ("TXN-" ++ toString now) else none⟩]) := by
  have hany : (db.any (fun rec => rec.paymentId == ("PAY-" ++ toString now))) = false := by
    cases hcase : db.any (fun rec => rec.paymentId == ("PAY-" ++ toString now)) with
    | false => rfl
    | true =>
      obtain ⟨x, hx, hpx⟩ := List.any_eq_true.mp hcase
      exact absurd (beq_iff_eq.mp hpx) (hfresh x hx)
  cases gw with
  | true =>
    simp only [processOrderPayment]
    rw [hany]
    rfl
  | false =>
    simp only [processOrderPayment]
    rw [hany]
    rfl

/-! ## Claim C8 -/

/-- **C8**.  Provided the id built from the clock is unused (the
`payment_id UNIQUE` constraint would otherwise abort the insert),
`ProcessPayment` appends exactly one `Payment` row carrying the freshly
allocated id, whose status is either `success` or `failed` and whose
transaction id is present iff the status is `success`, and publishes exactly
one `payment.processed` event carrying the order id, that payment id, the
status, the amount and the (possibly null) transaction id. -/
theorem C8_payment_row_and_event (gw : Bool) (now : Nat) (od : OrderData)
    (db : List Payment)
    (hfresh : ∀ rec ∈ db, rec.paymentId ≠ "PAY-" ++ toString now) :
    processOrderPayment gw now od db =
      (db ++ [⟨"PAY-" ++ toString now, od.orderId, od.userId, od.totalAmount,
        if gw then "success" else "failed",
        if gw then some ("TXN-" ++ toString now) else none⟩],
       [⟨od.orderId, "PAY-" ++ toString now, if gw then "success" else "failed",
        od.totalAmount, if gw then some ("TXN-" ++ toString now) else none⟩]) ∧
    ((if gw then "success" else "failed") = "success" ∨
      (if gw then "success" else "failed") = "failed") ∧
    ((if gw then some ("TXN-" ++ toString now) else none : Option String).isSome = true ↔
      (if gw then "success" else "failed") = "success") ∧
    (∀ rec ∈ db, rec.paymentId ≠ "PAY-" ++ toString now) := by
  refine ⟨processOrderPayment_spec gw now od db hfresh, ?_, ?_, hfresh⟩
  · cases gw with
    | true => exact Or.inl rfl
    | false => exact Or.inr rfl
  · cases gw with
    | true => simp
    | false => simp

/-- Witness for C8: a successful gateway call at clock 7 on an empty table. -/
theorem C8_payment_row_and_event_witness :
    processOrderPayment true 7 ⟨"O", "U", 50⟩ [] =
      ([] ++ [⟨"PAY-" ++ toString 7, "O", "U", 50,
        if true then "success" else "failed",
        if true then some ("TXN-" ++ toString 7) else none⟩],
       [⟨"O", "PAY-" ++ toString 7, if true then "success" else "failed", 50,
        if true then some ("TXN-" ++ toString 7) else none⟩]) :=
  (C8_payment_row_and_event true 7 ⟨"O", "U", 50⟩ [] (by simp)).1

/-! ## Claim C9 -/

/-- **C9** (amended).  A retry is accepted exactly when some `failed`
payment row exists for the order, and each accepted retry re-runs
`ProcessPayment`, appending one new row with a freshly allocated payment id
for the same order.  But "at most one success per order" is **not**
enforced: the retry endpoint only checks for a failed row, not for an
existing success, so repeated retries can produce several `success` rows for
the same order (see the counterexample). -/
theorem C9_retry_requires_failed_row (gw : Bool) (now : Nat) (oid : String)
    (db : List Payment) :
    (db.filter (fun rec => rec.orderId == oid && rec.status == "failed") = [] →
      retryPayment gw now oid db = (RetryOutcome.notFound, db, [])) ∧
    (∀ row rest,
      db.filter (fun rec => rec.orderId == oid && rec.status == "failed") = row :: rest →
      (∀ rec ∈ db, rec.paymentId ≠ "PAY-" ++ toString now) →
      (retryPayment gw now oid db).1 = RetryOutcome.retried ∧
      (retryPayment gw now oid db).2.1 =
        db ++ [⟨"PAY-" ++ toString now, oid, row.userId, row.amount,
          if gw then "success" else "failed",
          if gw then some ("TXN-" ++ toString now) else none⟩] ∧
      (retryPayment gw now oid db).2.2 =
        [⟨oid, "PAY-" ++ toString now, if gw then "success" else "failed",
          row.amount, if gw then some ("TXN-" ++ toString now) else none⟩]) := by
  constructor
  · intro hfil
    simp only [retryPayment]
    rw [hfil]
  · intro row rest hfil hfresh
    have hspec := processOrderPayment_spec gw now ⟨oid, row.userId, row.amount⟩ db hfresh
    have hbranch : retryPayment gw now oid db =
        (RetryOutcome.retried,
         (processOrderPayment gw now ⟨oid, row.userId, row.amount⟩ db).1,
         (processOrderPayment gw now ⟨oid, row.userId, row.amount⟩ db).2) := by
      simp only [retryPayment]
      rw [hfil]
    rw [hbranch, hspec]
    exact ⟨rfl, rfl, rfl⟩

/-- Counterexample to C9 as stated.  Order `O`: the initial payment fails
(clock 1); a retry succeeds (clock 2); a further retry is still accepted --
the failed row from clock 1 still exists -- and succeeds again (clock 3).
The table then holds **two** `success` rows for order `O`. -/
theorem C9_retry_counterexample :
    ((retryPayment true 3 "O" (retryPayment true 2 "O"
        (processOrderPayment false 1 ⟨"O", "U", 50⟩ []).1).2.1).2.1.filter
      (fun rec => rec.orderId == "O" && rec.status == "success")).length = 2 := by
  decide

/-- Witness for C9: a retry with no failed row is refused, and a retry on an
order with one failed row is accepted. -/
theorem C9_retry_requires_failed_row_witness :
    retryPayment true 5 "Z" [] = (RetryOutcome.notFound, [], []) ∧
    (retryPayment true 2 "O" [⟨"PAY-1", "O", "U", 50, "failed", none⟩]).1 =
      RetryOutcome.retried :=
  ⟨(C9_retry_requires_failed_row true 5 "Z" []).1 (by decide),
   ((C9_retry_requires_failed_row true 2 "O"
      [⟨"PAY-1", "O", "U", 50, "failed", none⟩]).2
      ⟨"PAY-1", "O", "U", 50, "failed", none⟩ [] (by decide) (by decide)).1⟩
